import Mathlib

/-!
# Verification of the resume profile filter and schema validator

A shallow embedding of `resume_builder/profile_manager.py` and
`resume_builder/validate_resume.py`.  Parsed YAML/JSON data is modelled by the
`Value` type below (`None`, booleans, integers, strings, lists, and
string-keyed mappings).  Python exceptions (`TypeError` on iterating or
subscripting a wrong shape, `AttributeError` on `.get` of a non-mapping,
unhashable set elements, ...) are modelled by `Option`: a function returns
`Option.none` exactly when the Python code would raise.  `copy.deepcopy` on
these immutable values is the identity; a separate heap-based model near the
end of the file captures the aliasing/mutation behaviour that deep copying is
there to prevent.
-/

set_option maxRecDepth 10000

/-- A parsed Python value: `None`, `bool`, `int`, `str`, `list`, or a
string-keyed `dict` (an association list in insertion order). -/
inductive Value where
  | none
  | bool (b : Bool)
  | int (n : Int)
  | str (s : String)
  | list (elems : List Value)
  | dict (entries : List (String × Value))

/-- Python truthiness (`bool(v)`): `None`, `False`, `0`, `""`, `[]`, `{}`
are falsy, everything else is truthy. -/
def pyTruthy : Value → Bool
  | .none => false
  | .bool b => b
  | .int n => n != 0
  | .str s => s ≠ ""
  | .list xs => !xs.isEmpty
  | .dict es => !es.isEmpty

/-- Whether a value is hashable (usable as a set element).  Lists and dicts
are unhashable; putting one in a `set(...)` raises `TypeError`. -/
def pyHashable : Value → Bool
  | .list _ => false
  | .dict _ => false
  | _ => true

/-- Python `==` restricted to hashable scalars (the only comparisons the
source performs inside sets).  `True == 1` and `False == 0` hold. -/
def pyEqScalar : Value → Value → Bool
  | .none, .none => true
  | .bool a, .bool b => a == b
  | .bool a, .int n => (if a then (1 : Int) else 0) == n
  | .int n, .bool a => n == (if a then (1 : Int) else 0)
  | .int a, .int b => a == b
  | .str a, .str b => a == b
  | _, _ => false

/-- All elements of a list are hashable: whether `set(xs)` succeeds. -/
def hashableAll (xs : List Value) : Bool := xs.all pyHashable

/-- Truthiness of the set intersection `set(xs) & set(ys)`. -/
def setInterNB (xs ys : List Value) : Bool :=
  xs.any fun x => ys.any fun y => pyEqScalar x y

/-- Membership `'all' in set(xs)`. -/
def containsAll (xs : List Value) : Bool :=
  xs.any fun x => pyEqScalar (.str "all") x

/-- First binding of key `k` in a dict's entry list (Python dicts have unique
keys; on a malformed duplicate list this matches `dict` lookup order). -/
def dictFind (es : List (String × Value)) (k : String) : Option Value :=
  match es with
  | [] => Option.none
  | (k', v) :: rest => if k' = k then some v else dictFind rest k

/-- `d.get(k, default)` on a dict's entry list. -/
def dictGetD (es : List (String × Value)) (k : String) (dflt : Value) : Value :=
  (dictFind es k).getD dflt

/-- `d[k] = v`: replace the first binding of `k`, or append if absent. -/
def setItem (es : List (String × Value)) (k : String) (v : Value) :
    List (String × Value) :=
  match es with
  | [] => [(k, v)]
  | (k', v') :: rest =>
      if k' = k then (k, v) :: rest else (k', v') :: setItem rest k v

/-- `x.get(k, default)`: succeeds only on dicts (`AttributeError` otherwise). -/
def pyGet (x : Value) (k : String) (dflt : Value) : Option Value :=
  match x with
  | .dict es => some (dictGetD es k dflt)
  | _ => Option.none

/-- Substring test, for Python `needle in haystackString`. -/
def strInfix (needle hay : String) : Bool :=
  (List.range (hay.length + 1)).any fun i =>
    needle.toList.isPrefixOf (hay.toList.drop i)

/-- Python `s in container` for a string literal `s`: key membership for
dicts, `==`-membership for lists, substring for strings; `TypeError`
(`Option.none`) for non-containers. -/
def pyInStr (s : String) : Value → Option Bool
  | .dict es => some (es.any fun kv => kv.1 == s)
  | .list xs => some (xs.any fun v => match v with | .str t => t == s | _ => false)
  | .str hay => some (strInfix s hay)
  | _ => Option.none

/-- Python `for x in v`: list elements, string characters, dict keys;
`TypeError` for anything else. -/
def pyIter : Value → Option (List Value)
  | .list xs => some xs
  | .str s => some (s.toList.map fun c => .str (String.mk [c]))
  | .dict es => some (es.map fun kv => .str kv.1)
  | _ => Option.none

/-- Coerce to an `int` for comparison/slicing (`bool` is an `int` subclass);
`Option.none` models the `TypeError` of e.g. `"x" <= 0`. -/
def pyToInt : Value → Option Int
  | .int n => some n
  | .bool b => some (if b then 1 else 0)
  | _ => Option.none

/-- Python `v[:k]` for `k ≥ 0`: works on lists and strings. -/
def pySliceTo (v : Value) (k : Int) : Option Value :=
  match v with
  | .list xs => some (.list (xs.take k.toNat))
  | .str s => some (.str (String.mk (s.toList.take k.toNat)))
  | _ => Option.none

/-- `copy.deepcopy` on immutable structural values is the identity; the heap
model at the end of the file accounts for the sharing it destroys. -/
def deepcopy (v : Value) : Value := v

/-! ## `profile_manager.filter_items` (lines 107-156) -/

/-- Tag normalization inside `filter_items` (lines 137-145): a list is kept,
`None` becomes `[]`, any other bare value becomes a one-element list. -/
def normalizeItemTags : Value → List Value
  | .list xs => xs
  | .none => []
  | x => [x]

/-- One iteration of the `filter_items` loop (lines 130-154): returns the
(zero- or one-element) list of items appended for this `item`. -/
def filterItemsStep (includeTags : List Value) (item : Value) :
    Option (List Value) :=
  match item with
  | .dict es =>
      let itemTags := normalizeItemTags (dictGetD es "include_in" (.list []))
      if hashableAll itemTags then
        if setInterNB itemTags includeTags then some [deepcopy (.dict es)]
        else if itemTags.isEmpty && containsAll includeTags then
          some [deepcopy (.dict es)]
        else some []
      else Option.none
  | x => if containsAll includeTags then some [deepcopy x] else some []

/-- The `filter_items` loop over the item sequence. -/
def filterItemsLoop (includeTags : List Value) : List Value → Option (List Value)
  | [] => some []
  | item :: rest => do
      let add ← filterItemsStep includeTags item
      let tail ← filterItemsLoop includeTags rest
      pure (add ++ tail)

/-- `filter_items(items, include_tags)` (lines 107-156).  `items` may be any
value (iterated like Python); the result is the filtered list. -/
def filter_items (items : Value) (includeTags : List Value) :
    Option (List Value) := do
  if !pyTruthy items then return []
  if includeTags.isEmpty then return []
  if !hashableAll includeTags then failure
  let xs ← pyIter items
  filterItemsLoop includeTags xs

/-! ## `profile_manager.apply_bullet_limit` (lines 159-175) -/

/-- `apply_bullet_limit(bullets, max_bullets)` (lines 159-175). -/
def apply_bullet_limit (bullets : Value) (maxBullets : Value) : Option Value := do
  if !pyTruthy bullets then return .list []
  match maxBullets with
  | .none => return deepcopy bullets
  | m => do
      let k ← pyToInt m
      if k ≤ 0 then return deepcopy bullets
      pySliceTo bullets k

/-! ## `profile_manager.filter_work_experience` (lines 178-248) -/

/-- Tag normalization used for positions (line 221) and flat `work` jobs
(line 330): `[position_tags] if position_tags else []` — a falsy non-list
(`None`, `""`, `0`, `False`, `{}`) becomes `[]`, a truthy non-list becomes a
one-element list.  NOTE: this differs from `normalizeItemTags` on falsy
non-`None` scalars. -/
def normalizePosTags : Value → List Value
  | .list xs => xs
  | x => if pyTruthy x then [x] else []

/-- `if field in d: d[field] = apply_bullet_limit(d[field], max)` on a
position's entry list. -/
def limitField (es : List (String × Value)) (field : String) (maxB : Value) :
    Option (List (String × Value)) :=
  match dictFind es field with
  | some v => do
      let v' ← apply_bullet_limit v maxB
      pure (setItem es field v')
  | Option.none => pure es

/-- One iteration of the position loop (lines 214-243): the (zero- or
one-element) list of positions appended for this `position`. -/
def fwePosition (includeTags : List Value) (maxB : Value) (position : Value) :
    Option (List Value) :=
  match position with
  | .dict es =>
      let posTags := normalizePosTags (dictGetD es "include_in" (.list []))
      if hashableAll posTags then
        if setInterNB posTags includeTags ||
            (posTags.isEmpty && containsAll includeTags) then do
          let es1 ← limitField es "responsibilities" maxB
          let es2 ← limitField es1 "highlights" maxB
          pure [.dict es2]
        else pure []
      else Option.none
  | _ => pure []

/-- The inner loop over one company's position list. -/
def fwePositions (includeTags : List Value) (maxB : Value) :
    List Value → Option (List Value)
  | [] => some []
  | p :: rest => do
      let add ← fwePosition includeTags maxB p
      let tail ← fwePositions includeTags maxB rest
      pure (add ++ tail)

/-- The outer loop over companies (lines 209-246), accumulating
`filtered_work`. -/
def fweCompanies (includeTags : List Value) (maxB : Value)
    (acc : List (String × Value)) :
    List (String × Value) → Option (List (String × Value))
  | [] => some acc
  | (company, positions) :: rest =>
      match positions with
      | .list ps => do
          let fps ← fwePositions includeTags maxB ps
          let acc' := if fps.isEmpty then acc
                      else setItem acc company (.list fps)
          fweCompanies includeTags maxB acc' rest
      | _ => fweCompanies includeTags maxB acc rest

/-- `filter_work_experience(work_data, include_tags, max_bullets)`
(lines 178-248): result is the entry list of the filtered mapping. -/
def filter_work_experience (workData : Value) (includeTags : List Value)
    (maxB : Value) : Option (List (String × Value)) := do
  if !pyTruthy workData then return []
  match workData with
  | .dict companies => do
      if !hashableAll includeTags then failure
      fweCompanies includeTags maxB [] companies
  | _ => return []

/-! ## `profile_manager.filter_projects` (lines 251-275) -/

/-- The in-place highlight truncation of one filtered project
(lines 268-273). -/
def fpLimitProject (maxB : Value) (proj : Value) : Option Value :=
  match proj with
  | .dict es =>
      match dictFind es "highlights" with
      | some hv => do
          let hv' ← apply_bullet_limit hv maxB
          pure (.dict (setItem es "highlights" hv'))
      | Option.none => pure (.dict es)
  | x => pure x

/-- The `for project in filtered` mutation loop of `filter_projects`. -/
def fpLimitLoop (maxB : Value) : List Value → Option (List Value)
  | [] => some []
  | p :: rest => do
      let p2 ← fpLimitProject maxB p
      let tail ← fpLimitLoop maxB rest
      pure (p2 :: tail)

/-- `filter_projects(projects, include_tags, max_bullets)` (lines 251-275). -/
def filter_projects (projects : Value) (includeTags : List Value)
    (maxB : Value) : Option (List Value) := do
  let filtered ← filter_items projects includeTags
  match maxB with
  | .none => pure filtered
  | m => do
      let k ← pyToInt m
      if k ≤ 0 then pure filtered
      else fpLimitLoop m filtered

/-! ## `profile_manager.filter_resume_data` (lines 278-401) -/

/-- One iteration of the flat JSON-Resume `work` loop (lines 324-344): only
the `highlights` field is bullet-limited there. -/
def workJobStep (includeTags : List Value) (maxB : Value) (job : Value) :
    Option (List Value) :=
  match job with
  | .dict es =>
      let jobTags := normalizePosTags (dictGetD es "include_in" (.list []))
      if hashableAll jobTags then
        if setInterNB jobTags includeTags ||
            (jobTags.isEmpty && containsAll includeTags) then
          match dictFind es "highlights" with
          | some hv => do
              let hv' ← apply_bullet_limit hv maxB
              pure [.dict (setItem es "highlights" hv')]
          | Option.none => pure [.dict es]
        else pure []
      else Option.none
  | _ => pure []

/-- The flat `work` loop (lines 320-344). -/
def workListLoop (includeTags : List Value) (maxB : Value) :
    List Value → Option (List Value)
  | [] => some []
  | job :: rest => do
      let add ← workJobStep includeTags maxB job
      let tail ← workListLoop includeTags maxB rest
      pure (add ++ tail)

/-- The whole flat `work` branch (lines 318-346), starting from the raw
section value: builds `include_tags_set`, iterates the section. -/
def filterWorkList (includeTags : List Value) (maxB : Value) (workList : Value) :
    Option (List Value) := do
  if !hashableAll includeTags then failure
  let jobs ← pyIter workList
  workListLoop includeTags maxB jobs

/-- Coercion of `include_tags` (lines 303-304): non-list truthy values become
one-element lists, falsy ones default to `['all']`. -/
def extractIncludeTags : Value → List Value
  | .list xs => xs
  | x => if pyTruthy x then [x] else [.str "all"]

/-- One `if key in filtered_data: filtered_data[key] = compute(resume_data.get(key, dflt))`
section branch of `filter_resume_data`.  Reads from the untouched source
`src`, writes into the accumulating copy `flt`; item assignment on a non-dict
raises. -/
def sectionStep (key : String) (dflt : Value) (compute : Value → Option Value)
    (src : Value) (flt : Value) : Option Value := do
  let present ← pyInStr key flt
  if present then do
    let raw := match src with
               | .dict es => some (dictGetD es key dflt)
               | _ => Option.none
    let raw ← raw
    let newv ← compute raw
    match flt with
    | .dict es => pure (.dict (setItem es key newv))
    | _ => failure
  else pure flt

/-- One section dispatch table entry: key, `resume_data.get` default, and the
section computation. -/
def runSections (src : Value) :
    List (String × Value × (Value → Option Value)) → Value → Option Value
  | [], flt => some flt
  | (k, d, f) :: rest, flt => (sectionStep k d f src flt).bind (runSections src rest)

/-- The nine section branches of `filter_resume_data` (lines 310-396), in
source order. -/
def resumeSections (includeTags : List Value) (maxB : Value) :
    List (String × Value × (Value → Option Value)) :=
  [("work_experience", .dict [], fun raw =>
      (filter_work_experience raw includeTags maxB).map .dict),
   ("work", .list [], fun raw => (filterWorkList includeTags maxB raw).map .list),
   ("education", .list [], fun raw => (filter_items raw includeTags).map .list),
   ("awards", .list [], fun raw => (filter_items raw includeTags).map .list),
   ("certifications", .list [], fun raw => (filter_items raw includeTags).map .list),
   ("certificates", .list [], fun raw => (filter_items raw includeTags).map .list),
   ("specialty_skills", .list [], fun raw => (filter_items raw includeTags).map .list),
   ("skills", .list [], fun raw => (filter_items raw includeTags).map .list),
   ("projects", .list [], fun raw =>
      (filter_projects raw includeTags maxB).map .list)]

/-- `filter_resume_data(resume_data, profile)` (lines 278-401). -/
def filter_resume_data (resumeData profile : Value) : Option Value := do
  if !pyTruthy resumeData then return .dict []
  if !pyTruthy profile then return deepcopy resumeData
  let filters ← pyGet profile "filters" (.dict [])
  let includeTagsRaw ← pyGet filters "include_tags" (.list [.str "all"])
  let includeTags := extractIncludeTags includeTagsRaw
  let maxB ← pyGet filters "max_bullets_per_job" .none
  runSections resumeData (resumeSections includeTags maxB) (deepcopy resumeData)

/-! ## `validate_resume.py`: the schema validator -/

/-- A `ValidationMessage` (level, dotted field path, message, optional
suggestion). -/
structure VMsg where
  level : String
  path : String
  message : String
  suggestion : Option String
deriving DecidableEq

/-- A `ValidationResult`: ordered error/warning/info lists. -/
structure VResult where
  errors : List VMsg
  warnings : List VMsg
  info : List VMsg
deriving DecidableEq

def VResult.empty : VResult := ⟨[], [], []⟩

def addError (r : VResult) (path msg : String)
    (sugg : Option String := Option.none) : VResult :=
  { r with errors := r.errors ++ [⟨"ERROR", path, msg, sugg⟩] }

def addWarning (r : VResult) (path msg : String)
    (sugg : Option String := Option.none) : VResult :=
  { r with warnings := r.warnings ++ [⟨"WARNING", path, msg, sugg⟩] }

/-- `ALLOWED_INCLUDE_IN_TAGS` (lines 35-43). -/
def ALLOWED_INCLUDE_IN_TAGS : List String :=
  ["all", "leadership", "management", "technical", "development",
   "consulting", "startup"]

def charIn (lo hi c : Char) : Bool := lo ≤ c && c ≤ hi

/-- `DATE_REGEX` body: `([1-2][0-9]{3}(-[0-1][0-9](-[0-3][0-9])?)?|Present)`
fully anchored. -/
def dateCore (s : String) : Bool :=
  if s = "Present" then true else
  match s.toList with
  | [a, b, c, d] =>
      charIn '1' '2' a && charIn '0' '9' b && charIn '0' '9' c && charIn '0' '9' d
  | [a, b, c, d, '-', m, n] =>
      charIn '1' '2' a && charIn '0' '9' b && charIn '0' '9' c && charIn '0' '9' d &&
      charIn '0' '1' m && charIn '0' '9' n
  | [a, b, c, d, '-', m, n, '-', p, q] =>
      charIn '1' '2' a && charIn '0' '9' b && charIn '0' '9' c && charIn '0' '9' d &&
      charIn '0' '1' m && charIn '0' '9' n &&
      charIn '0' '3' p && charIn '0' '9' q
  | _ => false

def emailLocalChar (c : Char) : Bool :=
  c.isAlpha || c.isDigit || c = '.' || c = '_' || c = '%' || c = '+' || c = '-'

def emailDomainChar (c : Char) : Bool :=
  c.isAlpha || c.isDigit || c = '.' || c = '-'

/-- Whether the regex fragment `[a-zA-Z0-9.-]+\.[a-zA-Z]{2,}` matches a whole
character list: split at the last dot (the alphabetic TLD admits no dot). -/
def emailDomainOK (cs : List Char) : Bool :=
  let rev := cs.reverse
  let tldRev := rev.takeWhile (· ≠ '.')
  let rest := rev.dropWhile (· ≠ '.')
  match rest with
  | '.' :: frontRev =>
      let front := frontRev.reverse
      !front.isEmpty && front.all emailDomainChar &&
      tldRev.length ≥ 2 && tldRev.all Char.isAlpha
  | _ => false

/-- `EMAIL_REGEX` body: `[a-zA-Z0-9._%+-]+@[a-zA-Z0-9.-]+\.[a-zA-Z]{2,}`
fully anchored. -/
def emailCore (s : String) : Bool :=
  let cs := s.toList
  let localPart := cs.takeWhile (· ≠ '@')
  match cs.dropWhile (· ≠ '@') with
  | '@' :: domain =>
      !localPart.isEmpty && localPart.all emailLocalChar && emailDomainOK domain
  | _ => false

def urlHostChar (c : Char) : Bool :=
  c.isAlpha || c.isDigit || c = '.' || c = '-'

/-- The part of `URL_REGEX` after the scheme:
`[a-zA-Z0-9.-]+(:[0-9]+)?(/.*)?` fully anchored (`.` excludes newlines). -/
def urlAfterScheme (cs : List Char) : Bool :=
  let host := cs.takeWhile urlHostChar
  let rest := cs.dropWhile urlHostChar
  !host.isEmpty &&
  (match rest with
   | [] => true
   | ':' :: r3 =>
       let port := r3.takeWhile Char.isDigit
       let r4 := r3.dropWhile Char.isDigit
       !port.isEmpty &&
       (match r4 with
        | [] => true
        | '/' :: path => path.all (· ≠ '\n')
        | _ => false)
   | '/' :: path => path.all (· ≠ '\n')
   | _ => false)

/-- `URL_REGEX` body: `https?://[a-zA-Z0-9.-]+(:[0-9]+)?(/.*)?` anchored. -/
def urlCore (s : String) : Bool :=
  let cs := s.toList
  if cs.take 7 = "http://".toList then urlAfterScheme (cs.drop 7)
  else if cs.take 8 = "https://".toList then urlAfterScheme (cs.drop 8)
  else false

/-- `re.match` with a final `$`: the pattern may also stop just before one
trailing newline. -/
def matchDollar (core : String → Bool) (s : String) : Bool :=
  core s || (s.toList.getLast? == some '\n' && core (String.mk s.toList.dropLast))

/-- `REGEX.match(v)`: requires a string argument (`TypeError` otherwise). -/
def pyRegexMatch (core : String → Bool) (v : Value) : Option Bool :=
  match v with
  | .str s => some (matchDollar core s)
  | _ => Option.none

/-- `v[k]` subscripting with a string key: only mappings support it here. -/
def pySubscr (v : Value) (k : String) : Option Value :=
  match v with
  | .dict es => dictFind es k
  | _ => Option.none

/-- `type(v).__name__`. -/
def pyTypeName : Value → String
  | .none => "NoneType"
  | .bool _ => "bool"
  | .int _ => "int"
  | .str _ => "str"
  | .list _ => "list"
  | .dict _ => "dict"

/-- Python `str()` of the values that can reach a message f-string. -/
def pyStr : Value → String
  | .none => "None"
  | .bool b => if b then "True" else "False"
  | .int n => toString n
  | .str s => s
  | .list _ => "[...]"
  | .dict _ => "{...}"

/-- The required-field loop pattern `for field in required: if field not in x:
add_error(path, f"Missing required field: {field}", sugg(field))`.  The
membership test raises on non-container `x`. -/
def vRequired (x : Value) (path : String) (sugg : String → Option String)
    (fields : List String) (r : VResult) : Option VResult :=
  match fields with
  | [] => some r
  | f :: rest => do
      let present ← pyInStr f x
      let r := if present then r
               else addError r path ("Missing required field: " ++ f) (sugg f)
      vRequired x path sugg rest r

/-- `_validate_date` (lines 432-446). -/
def vDate (dateStr : Value) (path : String) (r : VResult) : VResult :=
  match dateStr with
  | .str s =>
      if matchDollar dateCore s then r
      else addError r path ("Invalid date format: " ++ s)
        (some "Use YYYY-MM-DD, YYYY-MM, YYYY, or 'Present'")
  | v => addError r path ("Date must be a string, got " ++ pyTypeName v)

/-- Equality used by `tag not in ALLOWED_INCLUDE_IN_TAGS` and
`"all" in tags`: list membership under Python `==` against strings. -/
def tagIsStr (t : Value) (s : String) : Bool :=
  match t with
  | .str u => u == s
  | _ => false

/-- `', '.join(tags)`: succeeds only when every element is a string
(`TypeError` otherwise). -/
def joinStrs : List Value → Option (List String)
  | [] => some []
  | t :: rest =>
      match t with
      | .str s => (joinStrs rest).map fun ss => s :: ss
      | _ => Option.none

/-- `_validate_include_in_tags` (lines 448-480).  `', '.join(invalid_tags)`
raises when an invalid tag is not a string. -/
def vIncludeTags (tags : Value) (path : String) (r : VResult) : Option VResult :=
  match tags with
  | .list ts =>
      if ts.isEmpty then
        some (addError r (path ++ ".include_in") "include_in array cannot be empty"
          (some "Use include_in: [all] for items that appear in all profiles"))
      else do
        let invalid := ts.filter fun t =>
          !(ALLOWED_INCLUDE_IN_TAGS.any fun a => tagIsStr t a)
        let r ← if invalid.isEmpty then pure r else do
          let strs ← joinStrs invalid
          pure (addError r (path ++ ".include_in")
            ("Invalid tags: " ++ String.intercalate ", " strs)
            (some ("Allowed tags: " ++ String.intercalate ", " ALLOWED_INCLUDE_IN_TAGS)))
        if (ts.any fun t => tagIsStr t "all") && ts.length > 1 then
          pure (addWarning r (path ++ ".include_in")
            "Tag 'all' is present with other tags. The 'all' tag makes other tags redundant."
            (some "Consider using just include_in: [all]"))
        else pure r
  | v =>
      some (addError r (path ++ ".include_in")
        ("include_in must be an array, got " ++ pyTypeName v)
        (some "Use include_in: [all] or include_in: [leadership, technical]"))

/-- `enumerate` loop over already-extracted elements, threading the result. -/
def vEnum (f : Value → Nat → VResult → Option VResult) :
    List Value → Nat → VResult → Option VResult
  | [], _, r => some r
  | x :: rest, i, r => do
      let r ← f x i r
      vEnum f rest (i + 1) r

/-- The `if key in x: _validate_date(x[key], path)` pattern. -/
def vFieldDate (x : Value) (key path : String) (r : VResult) : Option VResult := do
  let present ← pyInStr key x
  if present then do
    let v ← pySubscr x key
    pure (vDate v path r)
  else pure r

/-- The `if "include_in" in x: _validate_include_in_tags(x["include_in"], path)`
pattern. -/
def vFieldTags (x : Value) (path : String) (r : VResult) : Option VResult := do
  let present ← pyInStr "include_in" x
  if present then do
    let v ← pySubscr x "include_in"
    vIncludeTags v path r
  else pure r

/-- The `if key in x and x[key]: URL_REGEX.match(x[key]) or error` pattern. -/
def vFieldURL (x : Value) (key path : String) (mkMsg : String → String)
    (sugg : Option String) (r : VResult) : Option VResult := do
  let present ← pyInStr key x
  if present then do
    let uv ← pySubscr x key
    if pyTruthy uv then do
      let ok ← pyRegexMatch urlCore uv
      if ok then pure r else pure (addError r path (mkMsg (pyStr uv)) sugg)
    else pure r
  else pure r

/-- The email-format check of `_validate_basics` (lines 172-178). -/
def vFieldEmail (x : Value) (r : VResult) : Option VResult := do
  let present ← pyInStr "email" x
  if present then do
    let ev ← pySubscr x "email"
    if pyTruthy ev then do
      let ok ← pyRegexMatch emailCore ev
      if ok then pure r
      else pure (addError r "basics.email" ("Invalid email format: " ++ pyStr ev)
        (some "Use format: user@example.com"))
    else pure r
  else pure r

/-- The `if key in x and x[key]: for idx, e in enumerate(x[key]): f(e, idx)`
pattern (profiles, responsibilities, nested projects, highlights). -/
def vFieldEnum (x : Value) (key : String)
    (f : Value → Nat → VResult → Option VResult) (r : VResult) :
    Option VResult := do
  let present ← pyInStr key x
  if present then do
    let v ← pySubscr x key
    if pyTruthy v then do
      let xs ← pyIter v
      vEnum f xs 0 r
    else pure r
  else pure r

/-- The acronym type check of `_validate_certifications` (lines 338-340). -/
def vFieldAcronym (x : Value) (path : String) (r : VResult) : Option VResult := do
  let present ← pyInStr "acronym" x
  if present then do
    let av ← pySubscr x "acronym"
    match av with
    | .none => pure r
    | .str _ => pure r
    | _ => pure (addError r (path ++ ".acronym") "Acronym must be a string")
  else pure r

/-- `_validate_profile` (lines 194-207): a social profile entry. -/
def vProfileEntry (p : Value) (path : String) (r : VResult) : Option VResult := do
  let r ← vRequired p path (fun _ => Option.none) ["network", "url"] r
  vFieldURL p "url" (path ++ ".url") (fun u => "Invalid URL: " ++ u)
    (some "URL must start with http:// or https://") r

/-- `_validate_basics` (lines 157-192). -/
def vBasics (basics : Value) (r : VResult) : Option VResult := do
  if !pyTruthy basics then return r
  let r ← vRequired basics "basics"
    (fun f => some ("Add 'basics." ++ f ++ "' to your resume")) ["name", "email"] r
  let r ← vFieldEmail basics r
  let r ← vFieldURL basics "url" "basics.url" (fun u => "Invalid URL format: " ++ u)
    (some "URL must start with http:// or https://") r
  vFieldEnum basics "profiles"
    (fun p i r => vProfileEntry p ("basics.profiles[" ++ toString i ++ "]") r) r

/-- One responsibility entry (lines 251-269). -/
def vRespEntry (resp : Value) (path : String) (r : VResult) : Option VResult :=
  match resp with
  | .dict es => do
      let r := if es.any (fun kv => kv.1 == "description") then r
               else addError r path "Responsibility object must have 'description' field"
      match dictFind es "include_in" with
      | some tv => vIncludeTags tv path r
      | Option.none => pure r
  | .str _ => pure r
  | _ => pure (addError r path
      "Responsibility must be a string or object with description and include_in")

/-- `_validate_project_in_position` (lines 276-284). -/
def vProjInPos (project : Value) (path : String) (r : VResult) : Option VResult := do
  let r ← vRequired project path (fun _ => Option.none) ["name", "description"] r
  vFieldTags project path r

/-- `_validate_position` (lines 232-274). -/
def vPosition (position : Value) (path : String) (r : VResult) : Option VResult := do
  let r ← vRequired position path (fun _ => Option.none)
    ["job_title", "location", "start_date", "end_date"] r
  let r ← vFieldDate position "start_date" (path ++ ".start_date") r
  let r ← vFieldDate position "end_date" (path ++ ".end_date") r
  let r ← vFieldTags position path r
  let r ← vFieldEnum position "responsibilities"
    (fun x i r => vRespEntry x (path ++ ".responsibilities[" ++ toString i ++ "]") r) r
  vFieldEnum position "projects"
    (fun x i r => vProjInPos x (path ++ ".projects[" ++ toString i ++ "]") r) r

/-- The company loop of `_validate_work_experience` (lines 221-230). -/
def vWECompanies : List (String × Value) → VResult → Option VResult
  | [], r => some r
  | (company, positions) :: rest, r => do
      let r ← match positions with
        | .list ps =>
            vEnum (fun p i r =>
              vPosition p ("work_experience." ++ company ++ "[" ++ toString i ++ "]") r)
              ps 0 r
        | _ => pure (addError r ("work_experience." ++ company)
            "Company entry must be an array of positions")
      vWECompanies rest r

/-- `_validate_work_experience` (lines 209-230). -/
def vWorkExperience (workExp : Value) (r : VResult) : Option VResult := do
  if !pyTruthy workExp then return r
  match workExp with
  | .dict companies => vWECompanies companies r
  | _ => return (addError r "work_experience"
      "work_experience must be an object with company names as keys")

/-- One education entry (lines 291-306). -/
def vEducationEntry (entry : Value) (i : Nat) (r : VResult) : Option VResult := do
  let path := "education[" ++ toString i ++ "]"
  let r ← vRequired entry path (fun _ => Option.none)
    ["institution", "area", "studyType", "startDate", "endDate"] r
  let r ← vFieldDate entry "startDate" (path ++ ".startDate") r
  let r ← vFieldDate entry "endDate" (path ++ ".endDate") r
  vFieldTags entry path r

/-- `_validate_education` (lines 286-306). -/
def vEducation (education : Value) (r : VResult) : Option VResult := do
  if !pyTruthy education then return r
  let xs ← pyIter education
  vEnum vEducationEntry xs 0 r

/-- One award entry (lines 313-324). -/
def vAwardEntry (award : Value) (i : Nat) (r : VResult) : Option VResult := do
  let path := "awards[" ++ toString i ++ "]"
  let r ← vRequired award path (fun _ => Option.none) ["title", "date", "awarder"] r
  let r ← vFieldDate award "date" (path ++ ".date") r
  vFieldTags award path r

/-- `_validate_awards` (lines 308-324). -/
def vAwards (awards : Value) (r : VResult) : Option VResult := do
  if !pyTruthy awards then return r
  let xs ← pyIter awards
  vEnum vAwardEntry xs 0 r

/-- One certification entry (lines 331-354). -/
def vCertEntry (cert : Value) (i : Nat) (r : VResult) : Option VResult := do
  let path := "certifications[" ++ toString i ++ "]"
  let r ← vRequired cert path (fun _ => Option.none) ["title", "date", "url"] r
  let r ← vFieldAcronym cert path r
  let r ← vFieldDate cert "date" (path ++ ".date") r
  let r ← vFieldURL cert "url" (path ++ ".url")
    (fun u => "Invalid URL: " ++ u) Option.none r
  let r ← vFieldURL cert "badge_url" (path ++ ".badge_url")
    (fun u => "Invalid badge URL: " ++ u) Option.none r
  vFieldTags cert path r

/-- `_validate_certifications` (lines 326-354). -/
def vCertifications (certs : Value) (r : VResult) : Option VResult := do
  if !pyTruthy certs then return r
  let xs ← pyIter certs
  vEnum vCertEntry xs 0 r

/-- One project highlight entry (lines 383-394): non-dict highlights are
silently skipped. -/
def vHighlightEntry (h : Value) (path : String) (r : VResult) : Option VResult :=
  match h with
  | .dict es => do
      let r := if es.any (fun kv => kv.1 == "description") then r
               else addError r path "Highlight object must have 'description' field"
      match dictFind es "include_in" with
      | some tv => vIncludeTags tv path r
      | Option.none => pure r
  | _ => pure r

/-- One project entry (lines 361-394). -/
def vProjectEntry (project : Value) (i : Nat) (r : VResult) : Option VResult := do
  let path := "projects[" ++ toString i ++ "]"
  let r ← vRequired project path (fun _ => Option.none)
    ["name", "description", "startDate", "roles", "type"] r
  let r ← vFieldDate project "startDate" (path ++ ".startDate") r
  let r ← vFieldDate project "endDate" (path ++ ".endDate") r
  let r ← vFieldURL project "url" (path ++ ".url")
    (fun u => "Invalid URL: " ++ u) Option.none r
  let r ← vFieldTags project path r
  vFieldEnum project "highlights"
    (fun h j r => vHighlightEntry h (path ++ ".highlights[" ++ toString j ++ "]") r) r

/-- `_validate_projects` (lines 356-394). -/
def vProjects (projects : Value) (r : VResult) : Option VResult := do
  if !pyTruthy projects then return r
  let xs ← pyIter projects
  vEnum vProjectEntry xs 0 r

/-- One volunteer entry (lines 401-415). -/
def vVolunteerEntry (vol : Value) (i : Nat) (r : VResult) : Option VResult := do
  let path := "volunteer[" ++ toString i ++ "]"
  let r ← vRequired vol path (fun _ => Option.none)
    ["organization", "position", "startDate", "endDate"] r
  let r ← vFieldDate vol "startDate" (path ++ ".startDate") r
  let r ← vFieldDate vol "endDate" (path ++ ".endDate") r
  vFieldTags vol path r

/-- `_validate_volunteer` (lines 396-415). -/
def vVolunteer (volunteer : Value) (r : VResult) : Option VResult := do
  if !pyTruthy volunteer then return r
  let xs ← pyIter volunteer
  vEnum vVolunteerEntry xs 0 r

/-- One specialty-skill entry (lines 422-430). -/
def vSkillEntry (skill : Value) (i : Nat) (r : VResult) : Option VResult := do
  let path := "specialty_skills[" ++ toString i ++ "]"
  let r ← vRequired skill path (fun _ => Option.none) ["name", "keywords"] r
  vFieldTags skill path r

/-- `_validate_specialty_skills` (lines 417-430). -/
def vSpecialtySkills (skills : Value) (r : VResult) : Option VResult := do
  if !pyTruthy skills then return r
  let xs ← pyIter skills
  vEnum vSkillEntry xs 0 r

/-- `_validate_structure` (lines 147-155): `REQUIRED_ROOT_FIELDS = ["basics"]`. -/
def vStructure (data : Value) (r : VResult) : Option VResult := do
  let present ← pyInStr "basics" data
  if present then pure r
  else pure (addError r "root" "Missing required field: basics"
    (some "Add 'basics:' section to your resume"))

/-- One `self._validate_X(data.get(key, dflt))` call of `validate_file`. -/
def vSection (key : String) (dflt : Value) (vf : Value → VResult → Option VResult)
    (data : Value) (r : VResult) : Option VResult :=
  (pyGet data key dflt).bind fun v => vf v r

/-- The validation body of `validate_file` after YAML parsing
(lines 134-145): runs every section validator on the parsed document in
source order and returns the accumulated `ValidationResult`. -/
def validate (data : Value) : Option VResult :=
  (vStructure data VResult.empty).bind fun r =>
  (vSection "basics" (.dict []) vBasics data r).bind fun r =>
  (vSection "work_experience" (.dict []) vWorkExperience data r).bind fun r =>
  (vSection "education" (.list []) vEducation data r).bind fun r =>
  (vSection "awards" (.list []) vAwards data r).bind fun r =>
  (vSection "certifications" (.list []) vCertifications data r).bind fun r =>
  (vSection "projects" (.list []) vProjects data r).bind fun r =>
  (vSection "volunteer" (.list []) vVolunteer data r).bind fun r =>
  vSection "specialty_skills" (.list []) vSpecialtySkills data r

/-!
## Heap model of the filter (for the no-source-mutation property)

The pure model above identifies `copy.deepcopy` with the identity, which is
sound for input/output values but cannot express mutation.  This second model
runs the same four filter functions over an explicit object heap: compound
values are references into a list of objects, `deepcopy` allocates fresh
objects, and the in-place updates of the Python source (`new_position[...] = ...`,
`project['highlights'] = ...`, `filtered_data[...] = ...`) are heap stores.
`Option.none` covers both Python exceptions and deep-copy fuel exhaustion.
-/

/-- A heap value: an immediate scalar or a reference to a heap object. -/
inductive PVal where
  | pnone
  | pbool (b : Bool)
  | pint (n : Int)
  | pstr (s : String)
  | pref (a : Nat)
deriving DecidableEq

/-- A heap object: a mutable list or a mutable string-keyed dict. -/
inductive Obj where
  | olist (xs : List PVal)
  | odict (es : List (String × PVal))
deriving DecidableEq

/-- The heap: object at address `a` is the `a`-th entry. -/
abbrev Heap := List Obj

def hget (h : Heap) (a : Nat) : Option Obj := h.get? a

/-- Allocate a fresh object, returning its address. -/
def halloc (h : Heap) (o : Obj) : Nat × Heap := (h.length, h ++ [o])

/-- Overwrite the object at an existing address. -/
def hset (h : Heap) (a : Nat) (o : Obj) : Heap := h.set a o

/-- Scalar `==` on heap values (references are unhashable and never reach
set operations). -/
def pEqScalar : PVal → PVal → Bool
  | .pnone, .pnone => true
  | .pbool a, .pbool b => a == b
  | .pbool a, .pint n => (if a then (1 : Int) else 0) == n
  | .pint n, .pbool a => n == (if a then (1 : Int) else 0)
  | .pint a, .pint b => a == b
  | .pstr a, .pstr b => a == b
  | _, _ => false

def pHashable : PVal → Bool
  | .pref _ => false
  | _ => true

def pHashableAll (xs : List PVal) : Bool := xs.all pHashable

def pSetInterNB (xs ys : List PVal) : Bool :=
  xs.any fun x => ys.any fun y => pEqScalar x y

def pContainsAll (xs : List PVal) : Bool :=
  xs.any fun x => pEqScalar (.pstr "all") x

/-- Truthiness of a heap value (compound values need a heap lookup). -/
def sTruthy (h : Heap) (v : PVal) : Option Bool :=
  match v with
  | .pnone => some false
  | .pbool b => some b
  | .pint n => some (n != 0)
  | .pstr s => some (s ≠ "")
  | .pref a => (hget h a).map fun o =>
      match o with
      | .olist xs => !xs.isEmpty
      | .odict es => !es.isEmpty

/-- Iteration over a heap value. -/
def sIter (h : Heap) (v : PVal) : Option (List PVal) :=
  match v with
  | .pstr s => some (s.toList.map fun c => .pstr (String.mk [c]))
  | .pref a => (hget h a).map fun o =>
      match o with
      | .olist xs => xs
      | .odict es => es.map fun kv => .pstr kv.1
  | _ => Option.none

def pFindEntry (es : List (String × PVal)) (k : String) : Option PVal :=
  match es with
  | [] => Option.none
  | (k', v) :: rest => if k' = k then some v else pFindEntry rest k

def pSetEntry (es : List (String × PVal)) (k : String) (v : PVal) :
    List (String × PVal) :=
  match es with
  | [] => [(k, v)]
  | (k', v') :: rest =>
      if k' = k then (k, v) :: rest else (k', v') :: pSetEntry rest k v

/-- The entry list of a dict-valued heap value, if it is one. -/
def sDictEntries (h : Heap) (v : PVal) : Option (List (String × PVal)) :=
  match v with
  | .pref a =>
      match hget h a with
      | some (.odict es) => some es
      | _ => Option.none
  | _ => Option.none

mutual
/-- `copy.deepcopy` over the heap, with a recursion budget (every recursive
call consumes one unit, so any materializable input succeeds for large
enough fuel).  Scalars are immediate; lists and dicts are copied
element-first, then a fresh object is allocated. -/
def sdeepcopy : Nat → Heap → PVal → Option (PVal × Heap)
  | 0, _, _ => Option.none
  | fuel + 1, h, .pref a => do
      let o ← hget h a
      match o with
      | .olist xs => do
          let (ys, h1) ← sdeepcopyList fuel h xs
          let (a2, h2) := halloc h1 (.olist ys)
          pure (.pref a2, h2)
      | .odict es => do
          let (fs, h1) ← sdeepcopyEntries fuel h es
          let (a2, h2) := halloc h1 (.odict fs)
          pure (.pref a2, h2)
  | _ + 1, h, v => some (v, h)
termination_by fuel _ _ => fuel

/-- Deep-copy each element of a list, threading the heap. -/
def sdeepcopyList : Nat → Heap → List PVal → Option (List PVal × Heap)
  | _, h, [] => some ([], h)
  | 0, _, _ :: _ => Option.none
  | fuel + 1, h, x :: xs => do
      let (y, h1) ← sdeepcopy fuel h x
      let (ys, h2) ← sdeepcopyList fuel h1 xs
      pure (y :: ys, h2)
termination_by fuel _ _ => fuel

/-- Deep-copy each value of a dict entry list, threading the heap. -/
def sdeepcopyEntries : Nat → Heap → List (String × PVal) →
    Option (List (String × PVal) × Heap)
  | _, h, [] => some ([], h)
  | 0, _, _ :: _ => Option.none
  | fuel + 1, h, (k, x) :: xs => do
      let (y, h1) ← sdeepcopy fuel h x
      let (ys, h2) ← sdeepcopyEntries fuel h1 xs
      pure ((k, y) :: ys, h2)
termination_by fuel _ _ => fuel
end

mutual
/-- Read back the immutable tree denoted by a heap value. -/
def materialize : Nat → Heap → PVal → Option Value
  | 0, _, _ => Option.none
  | _ + 1, _, .pnone => some .none
  | _ + 1, _, .pbool b => some (.bool b)
  | _ + 1, _, .pint n => some (.int n)
  | _ + 1, _, .pstr s => some (.str s)
  | fuel + 1, h, .pref a => do
      let o ← hget h a
      match o with
      | .olist xs => do
          let ts ← materializeList fuel h xs
          pure (.list ts)
      | .odict es => do
          let ts ← materializeEntries fuel h es
          pure (.dict ts)
termination_by fuel _ _ => fuel

def materializeList : Nat → Heap → List PVal → Option (List Value)
  | _, _, [] => some []
  | 0, _, _ :: _ => Option.none
  | fuel + 1, h, x :: xs => do
      let t ← materialize fuel h x
      let ts ← materializeList fuel h xs
      pure (t :: ts)
termination_by fuel _ _ => fuel

def materializeEntries : Nat → Heap → List (String × PVal) →
    Option (List (String × Value))
  | _, _, [] => some []
  | 0, _, _ :: _ => Option.none
  | fuel + 1, h, (k, x) :: xs => do
      let t ← materialize fuel h x
      let ts ← materializeEntries fuel h xs
      pure ((k, t) :: ts)
termination_by fuel _ _ => fuel
end

/-- Truthiness of a scalar heap value (refs handled separately). -/
def pScalarTruthy : PVal → Bool
  | .pnone => false
  | .pbool b => b
  | .pint n => n != 0
  | .pstr s => s ≠ ""
  | .pref _ => true

/-- Heap version of `normalizeItemTags` (`filter_items`, lines 140-145),
applied to the result of `item.get('include_in', [])` (`Option.none` =
absent, i.e. the fresh `[]` default). -/
def sNormalizeItemTags (h : Heap) (t : Option PVal) : Option (List PVal) :=
  match t with
  | Option.none => some []
  | some .pnone => some []
  | some (.pref a) =>
      (hget h a).map fun o =>
        match o with
        | .olist xs => xs
        | .odict _ => [PVal.pref a]
  | some v => some [v]

/-- Heap version of `normalizePosTags`
(`[position_tags] if position_tags else []`). -/
def sNormalizePosTags (h : Heap) (t : Option PVal) : Option (List PVal) :=
  match t with
  | Option.none => some []
  | some (.pref a) =>
      (hget h a).map fun o =>
        match o with
        | .olist xs => xs
        | .odict es => if es.isEmpty then [] else [PVal.pref a]
  | some v => some (if pScalarTruthy v then [v] else [])

/-- Python `s in v` over the heap, for a string literal `s`. -/
def sInStr (h : Heap) (s : String) (v : PVal) : Option Bool :=
  match v with
  | .pstr hay => some (strInfix s hay)
  | .pref a =>
      (hget h a).map fun o =>
        match o with
        | .odict es => es.any fun kv => kv.1 == s
        | .olist xs => xs.any fun x =>
            match x with | .pstr t => t == s | _ => false
  | _ => Option.none

/-- One iteration of the `filter_items` loop over the heap. -/
def sFilterItemsStep (fuel : Nat) (includeTags : List PVal) (item : PVal)
    (h : Heap) : Option (List PVal × Heap) :=
  match sDictEntries h item with
  | some es => do
      let itemTags ← sNormalizeItemTags h (pFindEntry es "include_in")
      if pHashableAll itemTags then
        if pSetInterNB itemTags includeTags then do
          let (c, h1) ← sdeepcopy fuel h item
          pure ([c], h1)
        else if itemTags.isEmpty && pContainsAll includeTags then do
          let (c, h1) ← sdeepcopy fuel h item
          pure ([c], h1)
        else pure ([], h)
      else Option.none
  | Option.none =>
      if pContainsAll includeTags then do
        let (c, h1) ← sdeepcopy fuel h item
        pure ([c], h1)
      else pure ([], h)

def sFilterItemsLoop (fuel : Nat) (includeTags : List PVal) :
    List PVal → Heap → Option (List PVal × Heap)
  | [], h => some ([], h)
  | x :: xs, h => do
      let (add, h1) ← sFilterItemsStep fuel includeTags x h
      let (tail, h2) ← sFilterItemsLoop fuel includeTags xs h1
      pure (add ++ tail, h2)

/-- Heap version of `filter_items` (lines 107-156); the result is the
element list of the fresh filtered list. -/
def sfilter_items (fuel : Nat) (items : PVal) (includeTags : List PVal)
    (h : Heap) : Option (List PVal × Heap) := do
  let tr ← sTruthy h items
  if !tr then return ([], h)
  if includeTags.isEmpty then return ([], h)
  if !pHashableAll includeTags then failure
  let xs ← sIter h items
  sFilterItemsLoop fuel includeTags xs h

/-- Heap version of `apply_bullet_limit` (lines 159-175). -/
def sapply_bullet_limit (fuel : Nat) (bullets maxB : PVal) (h : Heap) :
    Option (PVal × Heap) := do
  let tr ← sTruthy h bullets
  if !tr then
    let (a, h1) := halloc h (.olist [])
    return (.pref a, h1)
  match maxB with
  | .pnone => sdeepcopy fuel h bullets
  | m => do
      let k ← (match m with
               | .pint n => some n
               | .pbool b => some (if b then (1 : Int) else 0)
               | _ => Option.none)
      if k ≤ 0 then sdeepcopy fuel h bullets
      else
        match bullets with
        | .pstr s => pure (.pstr (String.mk (s.toList.take k.toNat)), h)
        | .pref a =>
            (match hget h a with
             | some (.olist xs) => do
                 let (ys, h1) ← sdeepcopyList fuel h (xs.take k.toNat)
                 let (a2, h2) := halloc h1 (.olist ys)
                 pure (.pref a2, h2)
             | _ => Option.none)
        | _ => Option.none

/-- `if field in obj(a): obj(a)[field] = apply_bullet_limit(obj(a)[field], max)`:
the in-place store of the source (lines 230-241, 337-342, 268-273). -/
def sLimitField (fuel : Nat) (a : Nat) (field : String) (maxB : PVal)
    (h : Heap) : Option Heap :=
  match hget h a with
  | some (.odict es) =>
      match pFindEntry es field with
      | some v => do
          let (v', h1) ← sapply_bullet_limit fuel v maxB h
          match hget h1 a with
          | some (.odict es1) => pure (hset h1 a (.odict (pSetEntry es1 field v')))
          | _ => Option.none
      | Option.none => pure h
  | _ => Option.none

/-- One iteration of the position loop of `filter_work_experience`
(lines 214-243) over the heap. -/
def sFwePosition (fuel : Nat) (includeTags : List PVal) (maxB : PVal)
    (position : PVal) (h : Heap) : Option (List PVal × Heap) :=
  match sDictEntries h position with
  | some es => do
      let posTags ← sNormalizePosTags h (pFindEntry es "include_in")
      if pHashableAll posTags then
        if pSetInterNB posTags includeTags ||
            (posTags.isEmpty && pContainsAll includeTags) then do
          let (c, h1) ← sdeepcopy fuel h position
          match c with
          | .pref a => do
              let h2 ← sLimitField fuel a "responsibilities" maxB h1
              let h3 ← sLimitField fuel a "highlights" maxB h2
              pure ([PVal.pref a], h3)
          | _ => Option.none
        else pure ([], h)
      else Option.none
  | Option.none => pure ([], h)

def sFwePositions (fuel : Nat) (includeTags : List PVal) (maxB : PVal) :
    List PVal → Heap → Option (List PVal × Heap)
  | [], h => some ([], h)
  | p :: ps, h => do
      let (add, h1) ← sFwePosition fuel includeTags maxB p h
      let (tail, h2) ← sFwePositions fuel includeTags maxB ps h1
      pure (add ++ tail, h2)

def sFweCompanies (fuel : Nat) (includeTags : List PVal) (maxB : PVal) :
    List (String × PVal) → List (String × PVal) → Heap →
    Option (List (String × PVal) × Heap)
  | acc, [], h => some (acc, h)
  | acc, (company, positions) :: rest, h =>
      match positions with
      | .pref a =>
          (match hget h a with
           | some (.olist ps) => do
               let (fps, h1) ← sFwePositions fuel includeTags maxB ps h
               if fps.isEmpty then
                 sFweCompanies fuel includeTags maxB acc rest h1
               else
                 let (al, h2) := halloc h1 (.olist fps)
                 sFweCompanies fuel includeTags maxB
                   (pSetEntry acc company (.pref al)) rest h2
           | _ => sFweCompanies fuel includeTags maxB acc rest h)
      | _ => sFweCompanies fuel includeTags maxB acc rest h

/-- Heap version of `filter_work_experience` (lines 178-248); the result is
the entry list of the fresh filtered mapping. -/
def sfilter_work_experience (fuel : Nat) (workData : PVal)
    (includeTags : List PVal) (maxB : PVal) (h : Heap) :
    Option (List (String × PVal) × Heap) := do
  let tr ← sTruthy h workData
  if !tr then return ([], h)
  match sDictEntries h workData with
  | some companies =>
      if !pHashableAll includeTags then failure
      else sFweCompanies fuel includeTags maxB [] companies h
  | Option.none => return ([], h)

/-- The in-place highlight truncation of one filtered project
(lines 268-273) over the heap. -/
def sFpLimitProject (fuel : Nat) (maxB : PVal) (proj : PVal) (h : Heap) :
    Option Heap :=
  match proj with
  | .pref a =>
      (match hget h a with
       | some (.odict es) =>
           match pFindEntry es "highlights" with
           | some hv => do
               let (hv', h1) ← sapply_bullet_limit fuel hv maxB h
               match hget h1 a with
               | some (.odict es1) =>
                   pure (hset h1 a (.odict (pSetEntry es1 "highlights" hv')))
               | _ => Option.none
           | Option.none => pure h
       | _ => pure h)
  | _ => pure h

def sFpLoop (fuel : Nat) (maxB : PVal) : List PVal → Heap → Option Heap
  | [], h => some h
  | p :: ps, h => do
      let h1 ← sFpLimitProject fuel maxB p h
      sFpLoop fuel maxB ps h1

/-- Heap version of `filter_projects` (lines 251-275). -/
def sfilter_projects (fuel : Nat) (projects : PVal) (includeTags : List PVal)
    (maxB : PVal) (h : Heap) : Option (List PVal × Heap) := do
  let (filtered, h1) ← sfilter_items fuel projects includeTags h
  match maxB with
  | .pnone => pure (filtered, h1)
  | m => do
      let k ← (match m with
               | .pint n => some n
               | .pbool b => some (if b then (1 : Int) else 0)
               | _ => Option.none)
      if k ≤ 0 then pure (filtered, h1)
      else do
        let h2 ← sFpLoop fuel m filtered h1
        pure (filtered, h2)

/-- One iteration of the flat `work` loop (lines 324-344) over the heap. -/
def sWorkJobStep (fuel : Nat) (includeTags : List PVal) (maxB : PVal)
    (job : PVal) (h : Heap) : Option (List PVal × Heap) :=
  match sDictEntries h job with
  | some es => do
      let jobTags ← sNormalizePosTags h (pFindEntry es "include_in")
      if pHashableAll jobTags then
        if pSetInterNB jobTags includeTags ||
            (jobTags.isEmpty && pContainsAll includeTags) then do
          let (c, h1) ← sdeepcopy fuel h job
          match c with
          | .pref a => do
              let h2 ← sLimitField fuel a "highlights" maxB h1
              pure ([PVal.pref a], h2)
          | _ => Option.none
        else pure ([], h)
      else Option.none
  | Option.none => pure ([], h)

def sWorkListLoop (fuel : Nat) (includeTags : List PVal) (maxB : PVal) :
    List PVal → Heap → Option (List PVal × Heap)
  | [], h => some ([], h)
  | j :: js, h => do
      let (add, h1) ← sWorkJobStep fuel includeTags maxB j h
      let (tail, h2) ← sWorkListLoop fuel includeTags maxB js h1
      pure (add ++ tail, h2)

/-- The whole flat `work` branch (lines 318-346) over the heap. -/
def sFilterWorkList (fuel : Nat) (includeTags : List PVal) (maxB : PVal)
    (workList : PVal) (h : Heap) : Option (List PVal × Heap) := do
  if !pHashableAll includeTags then failure
  let jobs ← sIter h workList
  sWorkListLoop fuel includeTags maxB jobs h

/-- One section branch of `filter_resume_data` over the heap: membership is
tested on the copy `d0`, the raw value is read from the untouched source
`src`, and the result is stored into `d0`'s object. -/
def sSectionStep (key : String) (compute : PVal → Heap → Option (PVal × Heap))
    (src d0 : PVal) (h : Heap) : Option (PVal × Heap) := do
  let present ← sInStr h key d0
  if present then do
    let srcEs ← sDictEntries h src
    let raw := (pFindEntry srcEs key).getD .pnone
    let (newv, h1) ← compute raw h
    match d0 with
    | .pref da =>
        (match hget h1 da with
         | some (.odict des) => pure (d0, hset h1 da (.odict (pSetEntry des key newv)))
         | _ => Option.none)
    | _ => Option.none
  else pure (d0, h)

/-- The `filtered_data[key] = filter_items(...)` computation for the plain
tag-filtered sections. -/
def sComputeItems (fuel : Nat) (includeTags : List PVal) (raw : PVal)
    (hh : Heap) : Option (PVal × Heap) := do
  let (xs, hh1) ← sfilter_items fuel raw includeTags hh
  let (a, hh2) := halloc hh1 (.olist xs)
  pure (.pref a, hh2)

/-- The `work_experience` section computation. -/
def sComputeWE (fuel : Nat) (includeTags : List PVal) (maxB : PVal) (raw : PVal)
    (hh : Heap) : Option (PVal × Heap) := do
  let (es, hh1) ← sfilter_work_experience fuel raw includeTags maxB hh
  let (a, hh2) := halloc hh1 (.odict es)
  pure (.pref a, hh2)

/-- The flat `work` section computation. -/
def sComputeWork (fuel : Nat) (includeTags : List PVal) (maxB : PVal) (raw : PVal)
    (hh : Heap) : Option (PVal × Heap) := do
  let (js, hh1) ← sFilterWorkList fuel includeTags maxB raw hh
  let (a, hh2) := halloc hh1 (.olist js)
  pure (.pref a, hh2)

/-- The `projects` section computation. -/
def sComputeProjects (fuel : Nat) (includeTags : List PVal) (maxB : PVal)
    (raw : PVal) (hh : Heap) : Option (PVal × Heap) := do
  let (xs, hh1) ← sfilter_projects fuel raw includeTags maxB hh
  let (a, hh2) := halloc hh1 (.olist xs)
  pure (.pref a, hh2)

/-- Heap version of `filter_resume_data` (lines 278-401). -/
def sfilter_resume_data (fuel : Nat) (resumeData profile : PVal) (h : Heap) :
    Option (PVal × Heap) := do
  let tr ← sTruthy h resumeData
  if !tr then
    let (a, h1) := halloc h (.odict [])
    return (.pref a, h1)
  let trp ← sTruthy h profile
  if !trp then sdeepcopy fuel h resumeData
  else do
    let pes ← sDictEntries h profile
    let filtersEs ← (match pFindEntry pes "filters" with
                     | Option.none => some []
                     | some fv => sDictEntries h fv)
    let includeTags ← (match pFindEntry filtersEs "include_tags" with
                       | Option.none => some [PVal.pstr "all"]
                       | some (.pref a) =>
                           (hget h a).map fun o =>
                             match o with
                             | .olist xs => xs
                             | .odict es => if es.isEmpty then [PVal.pstr "all"]
                                            else [PVal.pref a]
                       | some v => some (if pScalarTruthy v then [v]
                                         else [PVal.pstr "all"]))
    let maxB := (pFindEntry filtersEs "max_bullets_per_job").getD .pnone
    let (d0, h0) ← sdeepcopy fuel h resumeData
    (sSectionStep "work_experience" (sComputeWE fuel includeTags maxB)
        resumeData d0 h0).bind fun dh =>
    (sSectionStep "work" (sComputeWork fuel includeTags maxB)
        resumeData dh.1 dh.2).bind fun dh =>
    (sSectionStep "education" (sComputeItems fuel includeTags)
        resumeData dh.1 dh.2).bind fun dh =>
    (sSectionStep "awards" (sComputeItems fuel includeTags)
        resumeData dh.1 dh.2).bind fun dh =>
    (sSectionStep "certifications" (sComputeItems fuel includeTags)
        resumeData dh.1 dh.2).bind fun dh =>
    (sSectionStep "certificates" (sComputeItems fuel includeTags)
        resumeData dh.1 dh.2).bind fun dh =>
    (sSectionStep "specialty_skills" (sComputeItems fuel includeTags)
        resumeData dh.1 dh.2).bind fun dh =>
    (sSectionStep "skills" (sComputeItems fuel includeTags)
        resumeData dh.1 dh.2).bind fun dh =>
    sSectionStep "projects" (sComputeProjects fuel includeTags maxB)
        resumeData dh.1 dh.2

/-!
## Shape conditions under which the validator cannot raise

The validator is not exception-free for arbitrary section shapes (e.g.
`basics: 5` makes `"name" in basics` raise `TypeError`, and a non-string
invalid tag makes `', '.join(invalid_tags)` raise).  The following decidable
predicates delimit a class of documents on which the traversal always
completes; they are deliberately sufficient conditions, not exact.
-/

/-- `include_in` values whose validation cannot raise: any non-list (errored
out), or a list of strings (so `', '.join` of its invalid members works). -/
def safeTagsB : Value → Bool
  | .list ts => ts.all fun t => match t with | .str _ => true | _ => false
  | _ => true

/-- The `include_in` field of a record, if present, is join-safe. -/
def safeTagsField (es : List (String × Value)) : Bool :=
  match dictFind es "include_in" with
  | some v => safeTagsB v
  | Option.none => true

/-- A field that is regex-matched when truthy must be a string or falsy. -/
def strOrFalsyField (es : List (String × Value)) (k : String) : Bool :=
  match dictFind es k with
  | some (.str _) => true
  | some v => !pyTruthy v
  | Option.none => true

/-- A field that is enumerated when truthy: either falsy, or iterable with
every element satisfying `f`. -/
def iterAllSafeB (f : Value → Bool) (v : Value) : Bool :=
  match pyIter v with
  | some xs => xs.all f
  | Option.none => !pyTruthy v

def respEntrySafeB : Value → Bool
  | .dict es => safeTagsField es
  | _ => true

def projInPosSafeB : Value → Bool
  | .dict es => safeTagsField es
  | _ => false

def wfPositionB : Value → Bool
  | .dict es =>
      safeTagsField es &&
      (match dictFind es "responsibilities" with
       | some rv => iterAllSafeB respEntrySafeB rv
       | Option.none => true) &&
      (match dictFind es "projects" with
       | some pv => iterAllSafeB projInPosSafeB pv
       | Option.none => true)
  | _ => false

def wfBasicsB (b : Value) : Bool :=
  !pyTruthy b ||
  (match b with
   | .dict es =>
       strOrFalsyField es "email" && strOrFalsyField es "url" &&
       (match dictFind es "profiles" with
        | some pv => iterAllSafeB
            (fun p => match p with
             | .dict pes => strOrFalsyField pes "url"
             | _ => false) pv
        | Option.none => true)
   | _ => false)

def wfWEB (w : Value) : Bool :=
  !pyTruthy w ||
  (match w with
   | .dict cs => cs.all fun kv =>
       match kv.2 with
       | .list ps => ps.all wfPositionB
       | _ => true
   | _ => true)

def wfEduEntryB : Value → Bool
  | .dict es => safeTagsField es
  | _ => false

def wfCertEntryB : Value → Bool
  | .dict es => safeTagsField es && strOrFalsyField es "url" &&
      strOrFalsyField es "badge_url"
  | _ => false

def wfProjEntryB : Value → Bool
  | .dict es =>
      safeTagsField es && strOrFalsyField es "url" &&
      (match dictFind es "highlights" with
       | some hv => iterAllSafeB
           (fun x => match x with | .dict hes => safeTagsField hes | _ => true) hv
       | Option.none => true)
  | _ => false

/-- Well-shaped documents: a mapping whose present sections have the
container shapes the validator subscripts and iterates. -/
def wfDocB : Value → Bool
  | .dict ds =>
      wfBasicsB (dictGetD ds "basics" (.dict [])) &&
      wfWEB (dictGetD ds "work_experience" (.dict [])) &&
      iterAllSafeB wfEduEntryB (dictGetD ds "education" (.list [])) &&
      iterAllSafeB wfEduEntryB (dictGetD ds "awards" (.list [])) &&
      iterAllSafeB wfCertEntryB (dictGetD ds "certifications" (.list [])) &&
      iterAllSafeB wfProjEntryB (dictGetD ds "projects" (.list [])) &&
      iterAllSafeB wfEduEntryB (dictGetD ds "volunteer" (.list [])) &&
      iterAllSafeB wfEduEntryB (dictGetD ds "specialty_skills" (.list []))
  | _ => false

/-! ## Theorems -/

theorem dictFind_setItem_self (es : List (String × Value)) (k : String) (v : Value) :
    dictFind (setItem es k v) k = some v := by
  induction es with
  | nil => simp [setItem, dictFind]
  | cons kv rest ih =>
    cases kv with
    | mk k0 v0 =>
      by_cases h : k0 = k
      · simp [setItem, h, dictFind]
      · simp only [setItem, if_neg h, dictFind]
        exact ih

theorem dictFind_setItem_other (es : List (String × Value)) (k k' : String) (v : Value)
    (hne : k' ≠ k) : dictFind (setItem es k v) k' = dictFind es k' := by
  induction es with
  | nil => simp [setItem, dictFind, Ne.symm hne]
  | cons kv rest ih =>
    cases kv with
    | mk k0 v0 =>
      by_cases h : k0 = k
      · subst h
        simp only [setItem, if_pos rfl, dictFind]
        rw [if_neg (Ne.symm hne), if_neg (Ne.symm hne)]
      · simp only [setItem, if_neg h, dictFind]
        by_cases h2 : k0 = k'
        · rw [if_pos h2, if_pos h2]
        · rw [if_neg h2, if_neg h2]
          exact ih

theorem setItem_find_self (es : List (String × Value)) (k : String) (v : Value)
    (h : dictFind es k = some v) : setItem es k v = es := by
  induction es with
  | nil => simp [dictFind] at h
  | cons kv rest ih =>
    cases kv with
    | mk k0 v0 =>
      by_cases hk : k0 = k
      · subst hk
        have hv : v0 = v := by simpa [dictFind] using h
        subst hv
        simp [setItem]
      · rw [dictFind, if_neg hk] at h
        simp only [setItem, if_neg hk]
        rw [ih h]

/-- C4 test -/
theorem claim_C4 (bs : List Value) (m : Value) :
    ((m = Value.none ∨ ∃ k : Int, m = Value.int k ∧ k ≤ 0) →
      apply_bullet_limit (.list bs) m = some (.list bs)) ∧
    (∀ k : Int, m = Value.int k → 0 < k →
      apply_bullet_limit (.list bs) m = some (.list (bs.take k.toNat))) ∧
    (∀ k : Int, m = Value.int k → 0 < k → bs.length ≤ k.toNat →
      apply_bullet_limit (.list bs) m = some (.list bs)) := by
  refine ⟨?_, ?_, ?_⟩
  · rintro (rfl | ⟨k, rfl, hk⟩)
    · cases bs with
      | nil => rfl
      | cons b bs' => rfl
    · cases bs with
      | nil => rfl
      | cons b bs' =>
        simp [apply_bullet_limit, pyTruthy, pyToInt, deepcopy, hk]
  · rintro k rfl hk
    cases bs with
    | nil => simp [apply_bullet_limit, pyTruthy]
    | cons b bs' =>
      simp [apply_bullet_limit, pyTruthy, pyToInt, pySliceTo, deepcopy, not_le.mpr hk]
  · rintro k rfl hk hlen
    cases bs with
    | nil => rfl
    | cons b bs' =>
      simp [apply_bullet_limit, pyTruthy, pyToInt, pySliceTo, deepcopy, not_le.mpr hk,
        List.take_of_length_le hlen]

theorem claim_C4_witness :
    apply_bullet_limit (.list [.str "b1", .str "b2", .str "b3", .str "b4", .str "b5"]) (.int 3)
      = some (.list [.str "b1", .str "b2", .str "b3"]) ∧
    apply_bullet_limit (.list [.str "b1", .str "b2", .str "b3", .str "b4", .str "b5"]) Value.none
      = some (.list [.str "b1", .str "b2", .str "b3", .str "b4", .str "b5"]) := by
  constructor
  · exact (claim_C4 [.str "b1", .str "b2", .str "b3", .str "b4", .str "b5"] (.int 3)).2.1 3 rfl (by norm_num)
  · exact (claim_C4 [.str "b1", .str "b2", .str "b3", .str "b4", .str "b5"] Value.none).1 (Or.inl rfl)

/-- C3 test -/
theorem claim_C3 (D P : Value) :
    (∀ es, D = Value.dict es → pyTruthy P = false →
      filter_resume_data D P = some D) ∧
    (pyTruthy D = false → filter_resume_data D P = some (.dict [])) := by
  constructor
  · rintro es rfl hP
    cases es with
    | nil => rfl
    | cons kv rest =>
      simp [filter_resume_data, hP, deepcopy,
        show pyTruthy (Value.dict (kv :: rest)) = true from rfl]
  · intro hD
    simp [filter_resume_data, hD]

theorem claim_C3_witness :
    filter_resume_data (.dict [("basics", .dict [("name", .str "C")]),
        ("education", .list [.dict [("include_in", .list [.str "x"])]])]) Value.none
      = some (.dict [("basics", .dict [("name", .str "C")]),
        ("education", .list [.dict [("include_in", .list [.str "x"])]])]) ∧
    filter_resume_data Value.none (.dict [("filters", .dict [])]) = some (.dict []) := by
  constructor
  · exact (claim_C3 (.dict [("basics", .dict [("name", .str "C")]),
      ("education", .list [.dict [("include_in", .list [.str "x"])]])]) Value.none).1 _ rfl rfl
  · exact (claim_C3 Value.none (.dict [("filters", .dict [])])).2 rfl

/-- C9 test -/
theorem claim_C9 :
    validate (.dict [("basics", .dict [("name", .str "Colin Campbell")]),
      ("work_experience", .dict [("Company A", .list [.dict [
        ("job_title", .str "Engineer"),
        ("location", .str "Remote"),
        ("start_date", .str "not-a-date"),
        ("end_date", .str "Present"),
        ("include_in", .list [.str "bogus"])]])])]) =
    some ⟨[⟨"ERROR", "basics", "Missing required field: email",
            some "Add 'basics.email' to your resume"⟩,
          ⟨"ERROR", "work_experience.Company A[0].start_date",
            "Invalid date format: not-a-date",
            some "Use YYYY-MM-DD, YYYY-MM, YYYY, or 'Present'"⟩,
          ⟨"ERROR", "work_experience.Company A[0].include_in",
            "Invalid tags: bogus",
            some "Allowed tags: all, leadership, management, technical, development, consulting, startup"⟩],
         [], []⟩ := rfl

/-- C10 test -/
theorem claim_C10 :
    validate (.dict [("basics", .dict [])]) = some ⟨[], [], []⟩ := rfl

/-- C8 cex -/
theorem claim_C8_counterexample :
    validate (.dict [("basics", .int 5)]) = Option.none := rfl

/-- C6 cex -/
theorem claim_C6_counterexample :
    ∃ w out,
      filter_work_experience (.dict [("Company A", .list [.str "extra"])])
        [.str "all"] .none = some w ∧
      filter_items (.list [.str "extra"]) [.str "all"] = some out ∧
      ¬ ((∃ kv, kv ∈ w) ↔ (Value.str "extra") ∈ out) := by
  refine ⟨[], [.str "extra"], rfl, rfl, ?_⟩
  intro h
  obtain ⟨kv, hkv⟩ := h.mpr (List.mem_singleton.mpr rfl)
  exact absurd hkv (List.not_mem_nil kv)

/-- C7 cex -/
theorem claim_C7_counterexample :
    filter_resume_data
      (.dict [("work", .list [.dict [("include_in", .list [.str "all"]),
        ("responsibilities", .list [.str "r1", .str "r2", .str "r3", .str "r4", .str "r5"]),
        ("highlights", .list [.str "h1", .str "h2", .str "h3", .str "h4"])]])])
      (.dict [("filters", .dict [("include_tags", .list [.str "all"]),
        ("max_bullets_per_job", .int 3)])]) =
    some (.dict [("work", .list [.dict [("include_in", .list [.str "all"]),
        ("responsibilities", .list [.str "r1", .str "r2", .str "r3", .str "r4", .str "r5"]),
        ("highlights", .list [.str "h1", .str "h2", .str "h3"])]])]) ∧
    ([Value.str "r1", .str "r2", .str "r3", .str "r4", .str "r5"].length = 5 ∧ ¬ (5 ≤ 3)) :=
  ⟨rfl, rfl, by omega⟩

/-- C7 amended test -/
theorem claim_C7_amended (it : List Value) (maxB : Value) (es : List (String × Value))
    (out : List Value) (h : workJobStep it maxB (.dict es) = some out) :
    out = [] ∨
    ∃ es', out = [.dict es'] ∧
      dictFind es' "responsibilities" = dictFind es "responsibilities" ∧
      ((dictFind es "highlights" = Option.none ∧ es' = es) ∨
       (∃ hv hv', dictFind es "highlights" = some hv ∧
         apply_bullet_limit hv maxB = some hv' ∧
         es' = setItem es "highlights" hv')) := by
  simp only [workJobStep] at h
  split at h
  case isTrue =>
    split at h
    case isTrue =>
      cases hfind : dictFind es "highlights" with
      | none =>
        rw [hfind] at h
        have h2 : some [Value.dict es] = some out := h
        right
        exact ⟨es, (Option.some.inj h2).symm, rfl, Or.inl ⟨rfl, rfl⟩⟩
      | some hv =>
        rw [hfind] at h
        have h2 : (apply_bullet_limit hv maxB).bind
            (fun hv' => some [Value.dict (setItem es "highlights" hv')]) = some out := h
        cases habl : apply_bullet_limit hv maxB with
        | none => rw [habl] at h2; simp at h2
        | some hv' =>
          rw [habl] at h2
          simp only [Option.some_bind, Option.some.injEq] at h2
          right
          refine ⟨setItem es "highlights" hv', h2.symm, ?_,
            Or.inr ⟨hv, hv', rfl, habl, rfl⟩⟩
          exact dictFind_setItem_other es "highlights" "responsibilities" hv' (by decide)
    case isFalse =>
      left
      exact (Option.some.inj h).symm
  case isFalse => exact absurd h (by simp)

theorem pyIter_falsy_nil (items : Value) (xs : List Value)
    (hiter : pyIter items = some xs) (hF : pyTruthy items = false) : xs = [] := by
  cases items with
  | none => simp [pyIter] at hiter
  | bool b => simp [pyIter] at hiter
  | int n => simp [pyIter] at hiter
  | str s =>
    have : s = "" := by simpa [pyTruthy] using hF
    subst this
    simp [pyIter] at hiter
    simp [← hiter]
  | list l =>
    have : l = [] := by simpa [pyTruthy, List.isEmpty_iff] using hF
    subst this
    simp [pyIter] at hiter
    simp [← hiter]
  | dict es =>
    have : es = [] := by simpa [pyTruthy, List.isEmpty_iff] using hF
    subst this
    simp [pyIter] at hiter
    simp [← hiter]

theorem filterItemsStep_shape (t : List Value) (x : Value) (add : List Value)
    (h : filterItemsStep t x = some add) : add = [] ∨ add = [x] := by
  cases x with
  | dict es =>
    simp only [filterItemsStep, deepcopy] at h
    split at h
    · split at h
      · exact Or.inr (Option.some.inj h).symm
      · split at h
        · exact Or.inr (Option.some.inj h).symm
        · exact Or.inl (Option.some.inj h).symm
    · exact absurd h (by simp)
  | none =>
    simp only [filterItemsStep, deepcopy] at h
    split at h
    · exact Or.inr (Option.some.inj h).symm
    · exact Or.inl (Option.some.inj h).symm
  | bool b =>
    simp only [filterItemsStep, deepcopy] at h
    split at h
    · exact Or.inr (Option.some.inj h).symm
    · exact Or.inl (Option.some.inj h).symm
  | int n =>
    simp only [filterItemsStep, deepcopy] at h
    split at h
    · exact Or.inr (Option.some.inj h).symm
    · exact Or.inl (Option.some.inj h).symm
  | str s =>
    simp only [filterItemsStep, deepcopy] at h
    split at h
    · exact Or.inr (Option.some.inj h).symm
    · exact Or.inl (Option.some.inj h).symm
  | list l =>
    simp only [filterItemsStep, deepcopy] at h
    split at h
    · exact Or.inr (Option.some.inj h).symm
    · exact Or.inl (Option.some.inj h).symm

theorem filterItemsLoop_succeeds (t : List Value) (xs out : List Value)
    (h : filterItemsLoop t xs = some out) (x : Value) (hx : x ∈ xs) :
    ∃ a, filterItemsStep t x = some a := by
  induction xs generalizing out with
  | nil => cases hx
  | cons y ys ih =>
    simp only [filterItemsLoop] at h
    cases hstep : filterItemsStep t y with
    | none => rw [hstep] at h; simp at h
    | some add =>
      rw [hstep] at h
      simp only [Option.bind_eq_bind, Option.some_bind] at h
      cases hloop : filterItemsLoop t ys with
      | none => rw [hloop] at h; simp at h
      | some tail =>
        rcases List.mem_cons.mp hx with rfl | hx'
        · exact ⟨add, hstep⟩
        · exact ih _ hloop hx'

theorem filterItemsLoop_mem (t : List Value) (xs out : List Value)
    (h : filterItemsLoop t xs = some out) (r : Value) :
    r ∈ out ↔ ∃ x ∈ xs, x = r ∧ filterItemsStep t x = some [x] := by
  induction xs generalizing out with
  | nil =>
    have : out = [] := by simpa [filterItemsLoop] using h.symm
    subst this
    simp
  | cons y ys ih =>
    simp only [filterItemsLoop] at h
    cases hstep : filterItemsStep t y with
    | none => rw [hstep] at h; simp at h
    | some add =>
      rw [hstep] at h
      simp only [Option.bind_eq_bind, Option.some_bind] at h
      cases hloop : filterItemsLoop t ys with
      | none => rw [hloop] at h; simp at h
      | some tail =>
        rw [hloop] at h
        have h2 : add ++ tail = out := Option.some.inj h
        subst h2
        rw [List.mem_append]
        constructor
        · rintro (hadd | htail)
          · rcases filterItemsStep_shape t y add hstep with h3 | h3
            · subst h3; cases hadd
            · subst h3
              cases hadd with
              | head => exact ⟨_, List.mem_cons_self _ _, rfl, hstep⟩
              | tail _ hv => cases hv
          · obtain ⟨x, hx, rfl, hs⟩ := (ih _ hloop).mp htail
            exact ⟨x, List.mem_cons_of_mem _ hx, rfl, hs⟩
        · rintro ⟨x, hx, rfl, hs⟩
          rcases List.mem_cons.mp hx with rfl | hx'
          · rw [hstep] at hs
            left
            rw [Option.some.inj hs]
            exact List.mem_singleton.mpr rfl
          · right
            exact (ih _ hloop).mpr ⟨x, hx', rfl, hs⟩

/-- C1 test -/
theorem claim_C1 (items : Value) (t : List Value) (out xs : List Value)
    (es : List (String × Value))
    (htne : t ≠ [])
    (hsucc : filter_items items t = some out)
    (hiter : pyIter items = some xs)
    (hmem : Value.dict es ∈ xs) :
    (Value.dict es ∈ out ↔
      (setInterNB (normalizeItemTags (dictGetD es "include_in" (.list []))) t = true ∨
       (normalizeItemTags (dictGetD es "include_in" (.list [])) = [] ∧ containsAll t = true)))
    ∧ (normalizeItemTags (dictGetD es "include_in" (.list [])) ≠ [] →
       setInterNB (normalizeItemTags (dictGetD es "include_in" (.list []))) t = false →
       Value.dict es ∉ out) := by
  have hT : pyTruthy items = true := by
    by_contra hF
    have hF' : pyTruthy items = false := by
      cases hb : pyTruthy items
      · rfl
      · exact absurd hb hF
    rw [pyIter_falsy_nil items xs hiter hF'] at hmem
    exact absurd hmem (List.not_mem_nil _)
  have hte : t.isEmpty = false := by
    cases t with
    | nil => exact absurd rfl htne
    | cons a t' => rfl
  have hloop : hashableAll t = true ∧ filterItemsLoop t xs = some out := by
    by_cases hh : hashableAll t
    · refine ⟨hh, ?_⟩
      simp only [filter_items, hT, hte, hh, hiter, Bool.not_true, Bool.not_false,
        Bool.false_eq_true, if_false, if_true, Option.bind_eq_bind, Option.some_bind] at hsucc
      exact hsucc
    · exfalso
      simp only [Bool.not_eq_true] at hh
      simp only [filter_items, hT, hte, hh, Bool.not_true, Bool.not_false,
        Bool.false_eq_true, if_false, if_true, Option.bind_eq_bind] at hsucc
      exact absurd (show (Option.none : Option (List Value)) = some out from hsucc) (by simp)
  obtain ⟨hhash, hloop⟩ := hloop
  have hstepex : ∃ a, filterItemsStep t (.dict es) = some a :=
    filterItemsLoop_succeeds t xs out hloop _ hmem
  have hhash2 : hashableAll (normalizeItemTags (dictGetD es "include_in" (.list []))) = true := by
    by_contra hF
    obtain ⟨a, ha⟩ := hstepex
    simp only [filterItemsStep] at ha
    rw [if_neg hF] at ha
    cases ha
  have hmemiff := filterItemsLoop_mem t xs out hloop (.dict es)
  have hkeep : filterItemsStep t (.dict es) = some [.dict es] ↔
      (setInterNB (normalizeItemTags (dictGetD es "include_in" (.list []))) t = true ∨
       (normalizeItemTags (dictGetD es "include_in" (.list [])) = [] ∧ containsAll t = true)) := by
    simp only [filterItemsStep, deepcopy, hhash2, if_true]
    by_cases hint : setInterNB (normalizeItemTags (dictGetD es "include_in" (.list []))) t
    · simp [hint]
    · simp only [Bool.not_eq_true] at hint
      simp only [hint, Bool.false_eq_true, if_false]
      by_cases hniltags : (normalizeItemTags (dictGetD es "include_in" (.list []))).isEmpty
      · by_cases hall : containsAll t
        · simp [hniltags, hall, List.isEmpty_iff.mp hniltags]
        · simp only [Bool.not_eq_true] at hall
          simp [hniltags, hall]
      · have : (normalizeItemTags (dictGetD es "include_in" (.list []))) ≠ [] := by
          intro hc
          rw [hc] at hniltags
          exact hniltags rfl
        simp only [Bool.not_eq_true] at hniltags
        simp [hniltags, this]
  constructor
  · rw [hmemiff]
    constructor
    · rintro ⟨x, hx, hxr, hs⟩
      rw [hxr] at hs
      exact hkeep.mp hs
    · intro hrhs
      exact ⟨.dict es, hmem, rfl, hkeep.mpr hrhs⟩
  · intro hne hint
    rw [hmemiff]
    rintro ⟨x, hx, hxr, hs⟩
    rw [hxr] at hs
    rcases hkeep.mp hs with hc | ⟨hc, _⟩
    · rw [hint] at hc; cases hc
    · exact hne hc

theorem claim_C1_witness :
    ((Value.dict [("include_in", .list [.str "technical"])] ∈ ([] : List Value)) ↔
      (setInterNB (normalizeItemTags (dictGetD [("include_in", Value.list [.str "technical"])]
          "include_in" (.list []))) [.str "all"] = true ∨
       (normalizeItemTags (dictGetD [("include_in", Value.list [.str "technical"])]
          "include_in" (.list [])) = [] ∧ containsAll [.str "all"] = true)))
    ∧ (normalizeItemTags (dictGetD [("include_in", Value.list [.str "technical"])]
          "include_in" (.list [])) ≠ [] →
       setInterNB (normalizeItemTags (dictGetD [("include_in", Value.list [.str "technical"])]
          "include_in" (.list []))) [.str "all"] = false →
       Value.dict [("include_in", Value.list [.str "technical"])] ∉ ([] : List Value)) :=
  claim_C1 (.list [.dict [("include_in", .list [.str "technical"])]]) [.str "all"] []
    [.dict [("include_in", .list [.str "technical"])]]
    [("include_in", .list [.str "technical"])]
    (by simp) rfl rfl (by simp)

theorem dictFind_isSome_of_any (es : List (String × Value)) (k : String)
    (h : es.any (fun kv => kv.1 == k) = true) : ∃ v, dictFind es k = some v := by
  induction es with
  | nil => simp at h
  | cons kv rest ih =>
    cases kv with
    | mk k0 v0 =>
      by_cases hk : k0 = k
      · exact ⟨v0, by simp [dictFind, hk]⟩
      · simp only [List.any_cons, Bool.or_eq_true, beq_iff_eq] at h
        rcases h with h | h
        · exact absurd h hk
        · rcases ih h with ⟨v, hv⟩
          exact ⟨v, by simp [dictFind, hk, hv]⟩

theorem joinStrs_isSome (l : List Value) (h : ∀ t ∈ l, ∃ s, t = Value.str s) :
    (joinStrs l).isSome = true := by
  induction l with
  | nil => rfl
  | cons x rest ih =>
    rcases h x (List.mem_cons_self _ _) with ⟨s, rfl⟩
    have := ih fun t ht => h t (List.mem_cons_of_mem _ ht)
    rcases Option.isSome_iff_exists.mp this with ⟨ss, hss⟩
    simp [joinStrs, hss]

theorem vIncludeTags_isSome (tags : Value) (path : String) (r : VResult)
    (hsafe : safeTagsB tags = true) : (vIncludeTags tags path r).isSome = true := by
  cases tags with
  | list ts =>
    by_cases hempty : ts.isEmpty
    · simp [vIncludeTags, hempty]
    · simp only [safeTagsB, List.all_eq_true] at hsafe
      have hstr : ∀ t ∈ ts.filter (fun t =>
          !(ALLOWED_INCLUDE_IN_TAGS.any fun a => tagIsStr t a)), ∃ s, t = Value.str s := by
        intro t ht
        have h2 := hsafe t (List.mem_of_mem_filter ht)
        cases t with
        | str s => exact ⟨s, rfl⟩
        | none => simp at h2
        | bool b => simp at h2
        | int n => simp at h2
        | list l => simp at h2
        | dict es => simp at h2
      have hj := joinStrs_isSome _ hstr
      rcases Option.isSome_iff_exists.mp hj with ⟨ss, hss⟩
      by_cases hinv : (ts.filter (fun t =>
          !(ALLOWED_INCLUDE_IN_TAGS.any fun a => tagIsStr t a))).isEmpty
      · simp only [vIncludeTags, hempty, Bool.false_eq_true, if_false, hinv, if_true,
          Option.bind_eq_bind, Option.some_bind]
        split <;> simp
      · simp only [vIncludeTags, hempty, Bool.false_eq_true, if_false, hinv, hss,
          Option.bind_eq_bind, Option.some_bind]
        split <;> simp
  | none => rfl
  | bool b => rfl
  | int n => rfl
  | str s => rfl
  | dict es => rfl

theorem vRequired_isSome (es : List (String × Value)) (path : String)
    (sugg : String → Option String) (fields : List String) (r : VResult) :
    (vRequired (.dict es) path sugg fields r).isSome = true := by
  induction fields generalizing r with
  | nil => rfl
  | cons f rest ih =>
    simp only [vRequired, pyInStr, Option.bind_eq_bind, Option.some_bind]
    exact ih _

theorem vFieldDate_isSome (es : List (String × Value)) (key path : String) (r : VResult) :
    (vFieldDate (.dict es) key path r).isSome = true := by
  simp only [vFieldDate, pyInStr, Option.bind_eq_bind, Option.some_bind]
  by_cases hp : es.any fun kv => kv.1 == key
  · rcases dictFind_isSome_of_any es key hp with ⟨v, hv⟩
    simp [hp, pySubscr, hv]
  · simp [hp]

theorem vFieldTags_isSome (es : List (String × Value)) (path : String) (r : VResult)
    (hsafe : safeTagsField es = true) : (vFieldTags (.dict es) path r).isSome = true := by
  simp only [vFieldTags, pyInStr, Option.bind_eq_bind, Option.some_bind]
  by_cases hp : es.any fun kv => kv.1 == "include_in"
  · rcases dictFind_isSome_of_any es "include_in" hp with ⟨v, hv⟩
    have hsb : safeTagsB v = true := by
      simp only [safeTagsField, hv] at hsafe
      exact hsafe
    simp only [hp, if_true, pySubscr, hv, Option.some_bind]
    exact vIncludeTags_isSome v path r hsb
  · simp [hp]

theorem vFieldURL_isSome (es : List (String × Value)) (key path : String)
    (mkMsg : String → String) (sugg : Option String) (r : VResult)
    (hsafe : strOrFalsyField es key = true) :
    (vFieldURL (.dict es) key path mkMsg sugg r).isSome = true := by
  simp only [vFieldURL, pyInStr, Option.bind_eq_bind, Option.some_bind]
  by_cases hp : es.any fun kv => kv.1 == key
  · rcases dictFind_isSome_of_any es key hp with ⟨v, hv⟩
    simp only [hp, if_true, pySubscr, hv, Option.some_bind]
    by_cases htr : pyTruthy v
    · cases v with
      | str s => simp only [htr, if_true, pyRegexMatch, Option.some_bind]; split <;> simp
      | none => simp [pyTruthy] at htr
      | bool b =>
        simp only [strOrFalsyField, hv, Bool.not_eq_true'] at hsafe
        rw [hsafe] at htr; cases htr
      | int n =>
        simp only [strOrFalsyField, hv, Bool.not_eq_true'] at hsafe
        rw [hsafe] at htr; cases htr
      | list l =>
        simp only [strOrFalsyField, hv, Bool.not_eq_true'] at hsafe
        rw [hsafe] at htr; cases htr
      | dict d =>
        simp only [strOrFalsyField, hv, Bool.not_eq_true'] at hsafe
        rw [hsafe] at htr; cases htr
    · simp only [Bool.not_eq_true] at htr
      simp [htr]
  · simp [hp]

theorem vFieldEmail_isSome (es : List (String × Value)) (r : VResult)
    (hsafe : strOrFalsyField es "email" = true) :
    (vFieldEmail (.dict es) r).isSome = true := by
  simp only [vFieldEmail, pyInStr, Option.bind_eq_bind, Option.some_bind]
  by_cases hp : es.any fun kv => kv.1 == "email"
  · rcases dictFind_isSome_of_any es "email" hp with ⟨v, hv⟩
    simp only [hp, if_true, pySubscr, hv, Option.some_bind]
    by_cases htr : pyTruthy v
    · cases v with
      | str s => simp only [htr, if_true, pyRegexMatch, Option.some_bind]; split <;> simp
      | none => simp [pyTruthy] at htr
      | bool b =>
        simp only [strOrFalsyField, hv, Bool.not_eq_true'] at hsafe
        rw [hsafe] at htr; cases htr
      | int n =>
        simp only [strOrFalsyField, hv, Bool.not_eq_true'] at hsafe
        rw [hsafe] at htr; cases htr
      | list l =>
        simp only [strOrFalsyField, hv, Bool.not_eq_true'] at hsafe
        rw [hsafe] at htr; cases htr
      | dict d =>
        simp only [strOrFalsyField, hv, Bool.not_eq_true'] at hsafe
        rw [hsafe] at htr; cases htr
    · simp only [Bool.not_eq_true] at htr
      simp [htr]
  · simp [hp]

theorem vEnum_isSome (f : Value → Nat → VResult → Option VResult) (xs : List Value)
    (hf : ∀ x ∈ xs, ∀ i r, (f x i r).isSome = true) :
    ∀ i r, (vEnum f xs i r).isSome = true := by
  induction xs with
  | nil => intro i r; rfl
  | cons x rest ih =>
    intro i r
    simp only [vEnum, Option.bind_eq_bind]
    rcases Option.isSome_iff_exists.mp (hf x (List.mem_cons_self _ _) i r) with ⟨r1, hr1⟩
    simp only [hr1, Option.some_bind]
    exact ih (fun y hy => hf y (List.mem_cons_of_mem _ hy)) _ _

theorem vFieldEnum_isSome (es : List (String × Value)) (key : String)
    (f : Value → Nat → VResult → Option VResult) (r : VResult)
    (g : Value → Bool)
    (hsafe : match dictFind es key with
             | some v => iterAllSafeB g v = true
             | Option.none => True)
    (hf : ∀ x, g x = true → ∀ i r, (f x i r).isSome = true) :
    (vFieldEnum (.dict es) key f r).isSome = true := by
  simp only [vFieldEnum, pyInStr, Option.bind_eq_bind, Option.some_bind]
  by_cases hp : es.any fun kv => kv.1 == key
  · rcases dictFind_isSome_of_any es key hp with ⟨v, hv⟩
    simp only [hp, if_true, pySubscr, hv, Option.some_bind]
    rw [hv] at hsafe
    by_cases htr : pyTruthy v
    · simp only [htr, if_true]
      cases hiter : pyIter v with
      | none =>
        simp only [iterAllSafeB, hiter, Bool.not_eq_true'] at hsafe
        rw [hsafe] at htr; cases htr
      | some xs =>
        simp only [hiter, Option.some_bind]
        apply vEnum_isSome
        intro x hx i r2
        apply hf
        simp only [iterAllSafeB, hiter, List.all_eq_true] at hsafe
        exact hsafe x hx
    · simp only [Bool.not_eq_true] at htr
      simp [htr]
  · simp [hp]

theorem vProfileEntry_isSome (pes : List (String × Value)) (path : String) (r : VResult)
    (hsafe : strOrFalsyField pes "url" = true) :
    (vProfileEntry (.dict pes) path r).isSome = true := by
  simp only [vProfileEntry, Option.bind_eq_bind]
  rcases Option.isSome_iff_exists.mp (vRequired_isSome pes path (fun _ => Option.none)
    ["network", "url"] r) with ⟨r1, hr1⟩
  simp only [hr1, Option.some_bind]
  exact vFieldURL_isSome pes "url" (path ++ ".url") _ _ r1 hsafe

theorem vBasics_isSome (b : Value) (r : VResult) (hwf : wfBasicsB b = true) :
    (vBasics b r).isSome = true := by
  by_cases htr : pyTruthy b
  · cases b with
    | dict es =>
      simp only [wfBasicsB, htr, Bool.not_true, Bool.false_or, Bool.and_eq_true] at hwf
      obtain ⟨⟨hemail, hurl⟩, hprof⟩ := hwf
      simp only [vBasics, htr, Bool.not_true, Bool.false_eq_true, if_false,
        Option.bind_eq_bind]
      rcases Option.isSome_iff_exists.mp (vRequired_isSome es "basics"
        (fun f => some ("Add 'basics." ++ f ++ "' to your resume")) ["name", "email"] r)
        with ⟨r1, hr1⟩
      simp only [hr1, Option.some_bind]
      rcases Option.isSome_iff_exists.mp (vFieldEmail_isSome es r1 hemail) with ⟨r2, hr2⟩
      simp only [hr2, Option.some_bind]
      rcases Option.isSome_iff_exists.mp (vFieldURL_isSome es "url" "basics.url"
        (fun u => "Invalid URL format: " ++ u)
        (some "URL must start with http:// or https://") r2 hurl)
        with ⟨r3, hr3⟩
      simp only [hr3, Option.some_bind]
      apply vFieldEnum_isSome es "profiles" _ r3
        (fun p => match p with
          | Value.dict pes => strOrFalsyField pes "url"
          | _ => false)
      · cases hfind : dictFind es "profiles" with
        | none => trivial
        | some pv =>
          rw [hfind] at hprof
          exact hprof
      · intro x hx i r4
        cases x with
        | dict pes => exact vProfileEntry_isSome pes _ r4 hx
        | none => simp at hx
        | bool bb => simp at hx
        | int n => simp at hx
        | str s => simp at hx
        | list l => simp at hx
    | none => simp [pyTruthy] at htr
    | bool bb =>
      simp only [pyTruthy] at htr
      subst htr
      simp [wfBasicsB, pyTruthy] at hwf
    | int n =>
      simp only [wfBasicsB, htr, Bool.not_true, Bool.false_or] at hwf
      simp at hwf
    | str s =>
      simp only [wfBasicsB, htr, Bool.not_true, Bool.false_or] at hwf
      simp at hwf
    | list l =>
      simp only [wfBasicsB, htr, Bool.not_true, Bool.false_or] at hwf
      simp at hwf
  · simp only [Bool.not_eq_true] at htr
    simp [vBasics, htr]

theorem vRespEntry_isSome (x : Value) (path : String) (r : VResult)
    (hsafe : respEntrySafeB x = true) : (vRespEntry x path r).isSome = true := by
  cases x with
  | dict es =>
    simp only [respEntrySafeB] at hsafe
    cases hfind : dictFind es "include_in" with
    | none => simp [vRespEntry, hfind]
    | some tv =>
      have hsb : safeTagsB tv = true := by
        simp only [safeTagsField, hfind] at hsafe
        exact hsafe
      simp only [vRespEntry, hfind]
      exact vIncludeTags_isSome tv path _ hsb
  | none => rfl
  | bool b => rfl
  | int n => rfl
  | str s => rfl
  | list l => rfl

theorem vProjInPos_isSome (x : Value) (path : String) (r : VResult)
    (hsafe : projInPosSafeB x = true) : (vProjInPos x path r).isSome = true := by
  cases x with
  | dict es =>
    simp only [projInPosSafeB] at hsafe
    simp only [vProjInPos, Option.bind_eq_bind]
    rcases Option.isSome_iff_exists.mp (vRequired_isSome es path (fun _ => Option.none)
      ["name", "description"] r) with ⟨r1, hr1⟩
    simp only [hr1, Option.some_bind]
    exact vFieldTags_isSome es path r1 hsafe
  | none => simp [projInPosSafeB] at hsafe
  | bool b => simp [projInPosSafeB] at hsafe
  | int n => simp [projInPosSafeB] at hsafe
  | str s => simp [projInPosSafeB] at hsafe
  | list l => simp [projInPosSafeB] at hsafe

theorem vPosition_isSome (p : Value) (path : String) (r : VResult)
    (hwf : wfPositionB p = true) : (vPosition p path r).isSome = true := by
  cases p with
  | dict es =>
    simp only [wfPositionB, Bool.and_eq_true] at hwf
    obtain ⟨⟨htags, hresp⟩, hproj⟩ := hwf
    simp only [vPosition, Option.bind_eq_bind]
    rcases Option.isSome_iff_exists.mp (vRequired_isSome es path (fun _ => Option.none)
      ["job_title", "location", "start_date", "end_date"] r) with ⟨r1, hr1⟩
    simp only [hr1, Option.some_bind]
    rcases Option.isSome_iff_exists.mp
      (vFieldDate_isSome es "start_date" (path ++ ".start_date") r1) with ⟨r2, hr2⟩
    simp only [hr2, Option.some_bind]
    rcases Option.isSome_iff_exists.mp
      (vFieldDate_isSome es "end_date" (path ++ ".end_date") r2) with ⟨r3, hr3⟩
    simp only [hr3, Option.some_bind]
    rcases Option.isSome_iff_exists.mp (vFieldTags_isSome es path r3 htags) with ⟨r4, hr4⟩
    simp only [hr4, Option.some_bind]
    rcases Option.isSome_iff_exists.mp (vFieldEnum_isSome es "responsibilities"
      (fun x i r => vRespEntry x (path ++ ".responsibilities[" ++ toString i ++ "]") r) r4
      respEntrySafeB
      (by cases hfind : dictFind es "responsibilities" with
          | none => trivial
          | some rv => rw [hfind] at hresp; exact hresp)
      (fun x hx i r5 => vRespEntry_isSome x _ r5 hx)) with ⟨r5, hr5⟩
    simp only [hr5, Option.some_bind]
    exact vFieldEnum_isSome es "projects"
      (fun x i r => vProjInPos x (path ++ ".projects[" ++ toString i ++ "]") r) r5
      projInPosSafeB
      (by cases hfind : dictFind es "projects" with
          | none => trivial
          | some pv => rw [hfind] at hproj; exact hproj)
      (fun x hx i r6 => vProjInPos_isSome x _ r6 hx)
  | none => simp [wfPositionB] at hwf
  | bool b => simp [wfPositionB] at hwf
  | int n => simp [wfPositionB] at hwf
  | str s => simp [wfPositionB] at hwf
  | list l => simp [wfPositionB] at hwf

theorem vWECompanies_isSome (cs : List (String × Value)) (r : VResult)
    (hwf : (cs.all fun kv => match kv.2 with
            | Value.list ps => ps.all wfPositionB
            | _ => true) = true) :
    (vWECompanies cs r).isSome = true := by
  induction cs generalizing r with
  | nil => rfl
  | cons kv rest ih =>
    simp only [List.all_cons, Bool.and_eq_true] at hwf
    obtain ⟨hhd, htl⟩ := hwf
    cases kv with
    | mk company positions =>
      simp only [vWECompanies, Option.bind_eq_bind]
      cases positions with
      | list ps =>
        simp only at hhd
        rcases Option.isSome_iff_exists.mp (vEnum_isSome
          (fun p i r => vPosition p ("work_experience." ++ company ++ "[" ++ toString i ++ "]") r)
          ps
          (fun x hx i r2 => vPosition_isSome x _ r2
            (by simp only [List.all_eq_true] at hhd; exact hhd x hx)) 0 r) with ⟨r1, hr1⟩
        simp only [hr1, Option.some_bind]
        exact ih r1 htl
      | none => simp only [Option.some_bind]; exact ih _ htl
      | bool b => simp only [Option.some_bind]; exact ih _ htl
      | int n => simp only [Option.some_bind]; exact ih _ htl
      | str s => simp only [Option.some_bind]; exact ih _ htl
      | dict d => simp only [Option.some_bind]; exact ih _ htl

theorem vWorkExperience_isSome (w : Value) (r : VResult) (hwf : wfWEB w = true) :
    (vWorkExperience w r).isSome = true := by
  by_cases htr : pyTruthy w
  · cases w with
    | dict cs =>
      simp only [wfWEB, htr, Bool.not_true, Bool.false_or] at hwf
      simp only [vWorkExperience, htr, Bool.not_true, Bool.false_eq_true, if_false]
      exact vWECompanies_isSome cs r hwf
    | none => simp [pyTruthy] at htr
    | bool b => simp only [vWorkExperience, htr, Bool.not_true, Bool.false_eq_true, if_false]; simp
    | int n => simp only [vWorkExperience, htr, Bool.not_true, Bool.false_eq_true, if_false]; simp
    | str s => simp only [vWorkExperience, htr, Bool.not_true, Bool.false_eq_true, if_false]; simp
    | list l => simp only [vWorkExperience, htr, Bool.not_true, Bool.false_eq_true, if_false]; simp
  · simp only [Bool.not_eq_true] at htr
    simp [vWorkExperience, htr]

theorem vEducationEntry_isSome (x : Value) (i : Nat) (r : VResult)
    (hsafe : wfEduEntryB x = true) : (vEducationEntry x i r).isSome = true := by
  cases x with
  | dict es =>
    simp only [wfEduEntryB] at hsafe
    simp only [vEducationEntry, Option.bind_eq_bind]
    rcases Option.isSome_iff_exists.mp (vRequired_isSome es ("education[" ++ toString i ++ "]") (fun _ => Option.none)
      ["institution", "area", "studyType", "startDate", "endDate"] r) with ⟨r1, hr1⟩
    simp only [hr1, Option.some_bind]
    rcases Option.isSome_iff_exists.mp (vFieldDate_isSome es "startDate" ("education[" ++ toString i ++ "]" ++ ".startDate") r1) with ⟨r2, hr2⟩
    simp only [hr2, Option.some_bind]
    rcases Option.isSome_iff_exists.mp (vFieldDate_isSome es "endDate" ("education[" ++ toString i ++ "]" ++ ".endDate") r2) with ⟨r3, hr3⟩
    simp only [hr3, Option.some_bind]
    exact vFieldTags_isSome es ("education[" ++ toString i ++ "]") r3 hsafe
  | none => simp [wfEduEntryB] at hsafe
  | bool b => simp [wfEduEntryB] at hsafe
  | int n => simp [wfEduEntryB] at hsafe
  | str s => simp [wfEduEntryB] at hsafe
  | list l => simp [wfEduEntryB] at hsafe

theorem vAwardEntry_isSome (x : Value) (i : Nat) (r : VResult)
    (hsafe : wfEduEntryB x = true) : (vAwardEntry x i r).isSome = true := by
  cases x with
  | dict es =>
    simp only [wfEduEntryB] at hsafe
    simp only [vAwardEntry, Option.bind_eq_bind]
    rcases Option.isSome_iff_exists.mp (vRequired_isSome es ("awards[" ++ toString i ++ "]") (fun _ => Option.none)
      ["title", "date", "awarder"] r) with ⟨r1, hr1⟩
    simp only [hr1, Option.some_bind]
    rcases Option.isSome_iff_exists.mp (vFieldDate_isSome es "date" ("awards[" ++ toString i ++ "]" ++ ".date") r1) with ⟨r2, hr2⟩
    simp only [hr2, Option.some_bind]
    exact vFieldTags_isSome es ("awards[" ++ toString i ++ "]") r2 hsafe
  | none => simp [wfEduEntryB] at hsafe
  | bool b => simp [wfEduEntryB] at hsafe
  | int n => simp [wfEduEntryB] at hsafe
  | str s => simp [wfEduEntryB] at hsafe
  | list l => simp [wfEduEntryB] at hsafe

theorem vCertEntry_isSome (x : Value) (i : Nat) (r : VResult)
    (hsafe : wfCertEntryB x = true) : (vCertEntry x i r).isSome = true := by
  cases x with
  | dict es =>
    simp only [wfCertEntryB, Bool.and_eq_true] at hsafe
    obtain ⟨⟨htags, hurl⟩, hbadge⟩ := hsafe
    simp only [vCertEntry, Option.bind_eq_bind]
    rcases Option.isSome_iff_exists.mp (vRequired_isSome es ("certifications[" ++ toString i ++ "]") (fun _ => Option.none)
      ["title", "date", "url"] r) with ⟨r1, hr1⟩
    simp only [hr1, Option.some_bind]
    have hacr : (vFieldAcronym (.dict es) ("certifications[" ++ toString i ++ "]") r1).isSome
        = true := by
      simp only [vFieldAcronym, pyInStr, Option.bind_eq_bind, Option.some_bind]
      by_cases hp : es.any fun kv => kv.1 == "acronym"
      · rcases dictFind_isSome_of_any es "acronym" hp with ⟨v, hv⟩
        simp only [hp, if_true, pySubscr, hv, Option.some_bind]
        cases v <;> simp
      · simp [hp]
    rcases Option.isSome_iff_exists.mp hacr with ⟨r2, hr2⟩
    simp only [hr2, Option.some_bind]
    rcases Option.isSome_iff_exists.mp (vFieldDate_isSome es "date" ("certifications[" ++ toString i ++ "]" ++ ".date") r2) with ⟨r3, hr3⟩
    simp only [hr3, Option.some_bind]
    rcases Option.isSome_iff_exists.mp (vFieldURL_isSome es "url" ("certifications[" ++ toString i ++ "]" ++ ".url")
      (fun u => "Invalid URL: " ++ u) Option.none r3 hurl) with ⟨r4, hr4⟩
    simp only [hr4, Option.some_bind]
    rcases Option.isSome_iff_exists.mp (vFieldURL_isSome es "badge_url" ("certifications[" ++ toString i ++ "]" ++ ".badge_url")
      (fun u => "Invalid badge URL: " ++ u) Option.none r4 hbadge) with ⟨r5, hr5⟩
    simp only [hr5, Option.some_bind]
    exact vFieldTags_isSome es ("certifications[" ++ toString i ++ "]") r5 htags
  | none => simp [wfCertEntryB] at hsafe
  | bool b => simp [wfCertEntryB] at hsafe
  | int n => simp [wfCertEntryB] at hsafe
  | str s => simp [wfCertEntryB] at hsafe
  | list l => simp [wfCertEntryB] at hsafe

theorem vHighlightEntry_isSome (x : Value) (path : String) (r : VResult)
    (hsafe : (match x with | Value.dict hes => safeTagsField hes | _ => true) = true) :
    (vHighlightEntry x path r).isSome = true := by
  cases x with
  | dict es =>
    simp only at hsafe
    cases hfind : dictFind es "include_in" with
    | none => simp [vHighlightEntry, hfind]
    | some tv =>
      have hsb : safeTagsB tv = true := by
        simp only [safeTagsField, hfind] at hsafe
        exact hsafe
      simp only [vHighlightEntry, hfind]
      exact vIncludeTags_isSome tv path _ hsb
  | none => rfl
  | bool b => rfl
  | int n => rfl
  | str s => rfl
  | list l => rfl

theorem vProjectEntry_isSome (x : Value) (i : Nat) (r : VResult)
    (hsafe : wfProjEntryB x = true) : (vProjectEntry x i r).isSome = true := by
  cases x with
  | dict es =>
    simp only [wfProjEntryB, Bool.and_eq_true] at hsafe
    obtain ⟨⟨htags, hurl⟩, hhl⟩ := hsafe
    simp only [vProjectEntry, Option.bind_eq_bind]
    rcases Option.isSome_iff_exists.mp (vRequired_isSome es ("projects[" ++ toString i ++ "]") (fun _ => Option.none)
      ["name", "description", "startDate", "roles", "type"] r) with ⟨r1, hr1⟩
    simp only [hr1, Option.some_bind]
    rcases Option.isSome_iff_exists.mp (vFieldDate_isSome es "startDate" ("projects[" ++ toString i ++ "]" ++ ".startDate") r1) with ⟨r2, hr2⟩
    simp only [hr2, Option.some_bind]
    rcases Option.isSome_iff_exists.mp (vFieldDate_isSome es "endDate" ("projects[" ++ toString i ++ "]" ++ ".endDate") r2) with ⟨r3, hr3⟩
    simp only [hr3, Option.some_bind]
    rcases Option.isSome_iff_exists.mp (vFieldURL_isSome es "url" ("projects[" ++ toString i ++ "]" ++ ".url")
      (fun u => "Invalid URL: " ++ u) Option.none r3 hurl) with ⟨r4, hr4⟩
    simp only [hr4, Option.some_bind]
    rcases Option.isSome_iff_exists.mp (vFieldTags_isSome es ("projects[" ++ toString i ++ "]") r4 htags) with ⟨r5, hr5⟩
    simp only [hr5, Option.some_bind]
    exact vFieldEnum_isSome es "highlights" _ r5
      (fun x => match x with | Value.dict hes => safeTagsField hes | _ => true)
      (by cases hfind : dictFind es "highlights" with
          | none => trivial
          | some hv => rw [hfind] at hhl; exact hhl)
      (fun x hx j r6 => vHighlightEntry_isSome x _ r6 hx)
  | none => simp [wfProjEntryB] at hsafe
  | bool b => simp [wfProjEntryB] at hsafe
  | int n => simp [wfProjEntryB] at hsafe
  | str s => simp [wfProjEntryB] at hsafe
  | list l => simp [wfProjEntryB] at hsafe

theorem vVolunteerEntry_isSome (x : Value) (i : Nat) (r : VResult)
    (hsafe : wfEduEntryB x = true) : (vVolunteerEntry x i r).isSome = true := by
  cases x with
  | dict es =>
    simp only [wfEduEntryB] at hsafe
    simp only [vVolunteerEntry, Option.bind_eq_bind]
    rcases Option.isSome_iff_exists.mp (vRequired_isSome es ("volunteer[" ++ toString i ++ "]") (fun _ => Option.none)
      ["organization", "position", "startDate", "endDate"] r) with ⟨r1, hr1⟩
    simp only [hr1, Option.some_bind]
    rcases Option.isSome_iff_exists.mp (vFieldDate_isSome es "startDate" ("volunteer[" ++ toString i ++ "]" ++ ".startDate") r1) with ⟨r2, hr2⟩
    simp only [hr2, Option.some_bind]
    rcases Option.isSome_iff_exists.mp (vFieldDate_isSome es "endDate" ("volunteer[" ++ toString i ++ "]" ++ ".endDate") r2) with ⟨r3, hr3⟩
    simp only [hr3, Option.some_bind]
    exact vFieldTags_isSome es ("volunteer[" ++ toString i ++ "]") r3 hsafe
  | none => simp [wfEduEntryB] at hsafe
  | bool b => simp [wfEduEntryB] at hsafe
  | int n => simp [wfEduEntryB] at hsafe
  | str s => simp [wfEduEntryB] at hsafe
  | list l => simp [wfEduEntryB] at hsafe

theorem vSkillEntry_isSome (x : Value) (i : Nat) (r : VResult)
    (hsafe : wfEduEntryB x = true) : (vSkillEntry x i r).isSome = true := by
  cases x with
  | dict es =>
    simp only [wfEduEntryB] at hsafe
    simp only [vSkillEntry, Option.bind_eq_bind]
    rcases Option.isSome_iff_exists.mp (vRequired_isSome es ("specialty_skills[" ++ toString i ++ "]") (fun _ => Option.none)
      ["name", "keywords"] r) with ⟨r1, hr1⟩
    simp only [hr1, Option.some_bind]
    exact vFieldTags_isSome es ("specialty_skills[" ++ toString i ++ "]") r1 hsafe
  | none => simp [wfEduEntryB] at hsafe
  | bool b => simp [wfEduEntryB] at hsafe
  | int n => simp [wfEduEntryB] at hsafe
  | str s => simp [wfEduEntryB] at hsafe
  | list l => simp [wfEduEntryB] at hsafe

theorem vListSection_isSome (vf : Value → VResult → Option VResult)
    (entry : Value → Nat → VResult → Option VResult)
    (entrySafe : Value → Bool)
    (hdef : ∀ v r, vf v r = (do
      if !pyTruthy v then return r
      let xs ← pyIter v
      vEnum entry xs 0 r))
    (hentry : ∀ x, entrySafe x = true → ∀ i r, (entry x i r).isSome = true)
    (v : Value) (r : VResult) (hwf : iterAllSafeB entrySafe v = true) :
    (vf v r).isSome = true := by
  rw [hdef]
  by_cases htr : pyTruthy v
  · simp only [htr, Bool.not_true, Bool.false_eq_true, if_false, Option.bind_eq_bind]
    cases hiter : pyIter v with
    | none =>
      simp only [iterAllSafeB, hiter, Bool.not_eq_true'] at hwf
      rw [hwf] at htr; cases htr
    | some xs =>
      simp only [hiter, Option.some_bind]
      apply vEnum_isSome
      intro x hx i r2
      apply hentry
      simp only [iterAllSafeB, hiter, List.all_eq_true] at hwf
      exact hwf x hx
  · simp only [Bool.not_eq_true] at htr
    simp [htr]

theorem vEducation_isSome (v : Value) (r : VResult)
    (hwf : iterAllSafeB wfEduEntryB v = true) : (vEducation v r).isSome = true :=
  vListSection_isSome vEducation vEducationEntry wfEduEntryB (fun _ _ => rfl)
    (fun x hx i r => vEducationEntry_isSome x i r hx) v r hwf

theorem vAwards_isSome (v : Value) (r : VResult)
    (hwf : iterAllSafeB wfEduEntryB v = true) : (vAwards v r).isSome = true :=
  vListSection_isSome vAwards vAwardEntry wfEduEntryB (fun _ _ => rfl)
    (fun x hx i r => vAwardEntry_isSome x i r hx) v r hwf

theorem vCertifications_isSome (v : Value) (r : VResult)
    (hwf : iterAllSafeB wfCertEntryB v = true) : (vCertifications v r).isSome = true :=
  vListSection_isSome vCertifications vCertEntry wfCertEntryB (fun _ _ => rfl)
    (fun x hx i r => vCertEntry_isSome x i r hx) v r hwf

theorem vProjects_isSome (v : Value) (r : VResult)
    (hwf : iterAllSafeB wfProjEntryB v = true) : (vProjects v r).isSome = true :=
  vListSection_isSome vProjects vProjectEntry wfProjEntryB (fun _ _ => rfl)
    (fun x hx i r => vProjectEntry_isSome x i r hx) v r hwf

theorem vVolunteer_isSome (v : Value) (r : VResult)
    (hwf : iterAllSafeB wfEduEntryB v = true) : (vVolunteer v r).isSome = true :=
  vListSection_isSome vVolunteer vVolunteerEntry wfEduEntryB (fun _ _ => rfl)
    (fun x hx i r => vVolunteerEntry_isSome x i r hx) v r hwf

theorem vSpecialtySkills_isSome (v : Value) (r : VResult)
    (hwf : iterAllSafeB wfEduEntryB v = true) : (vSpecialtySkills v r).isSome = true :=
  vListSection_isSome vSpecialtySkills vSkillEntry wfEduEntryB (fun _ _ => rfl)
    (fun x hx i r => vSkillEntry_isSome x i r hx) v r hwf

/-- C8 amended test -/
theorem claim_C8_amended (data : Value) (hwf : wfDocB data = true) :
    ∃ r, validate data = some r := by
  cases data with
  | dict ds =>
    simp only [wfDocB, Bool.and_eq_true] at hwf
    obtain ⟨⟨⟨⟨⟨⟨⟨hb, hw⟩, hed⟩, haw⟩, hce⟩, hpr⟩, hvo⟩, hsk⟩ := hwf
    have hstruct : ∃ r1, vStructure (.dict ds) VResult.empty = some r1 := by
      simp only [vStructure, pyInStr, Option.bind_eq_bind, Option.some_bind]
      split
      · exact ⟨_, rfl⟩
      · exact ⟨_, rfl⟩
    obtain ⟨r1, hr1⟩ := hstruct
    simp only [validate, hr1, Option.some_bind, vSection, pyGet, Option.some_bind]
    rcases Option.isSome_iff_exists.mp (vBasics_isSome _ r1 hb) with ⟨r2, hr2⟩
    rw [hr2]
    simp only [Option.some_bind]
    rcases Option.isSome_iff_exists.mp (vWorkExperience_isSome _ r2 hw) with ⟨r3, hr3⟩
    rw [hr3]
    simp only [Option.some_bind]
    rcases Option.isSome_iff_exists.mp (vEducation_isSome _ r3 hed) with ⟨r4, hr4⟩
    rw [hr4]
    simp only [Option.some_bind]
    rcases Option.isSome_iff_exists.mp (vAwards_isSome _ r4 haw) with ⟨r5, hr5⟩
    rw [hr5]
    simp only [Option.some_bind]
    rcases Option.isSome_iff_exists.mp (vCertifications_isSome _ r5 hce) with ⟨r6, hr6⟩
    rw [hr6]
    simp only [Option.some_bind]
    rcases Option.isSome_iff_exists.mp (vProjects_isSome _ r6 hpr) with ⟨r7, hr7⟩
    rw [hr7]
    simp only [Option.some_bind]
    rcases Option.isSome_iff_exists.mp (vVolunteer_isSome _ r7 hvo) with ⟨r8, hr8⟩
    rw [hr8]
    simp only [Option.some_bind]
    exact Option.isSome_iff_exists.mp (vSpecialtySkills_isSome _ r8 hsk)
  | none => simp [wfDocB] at hwf
  | bool b => simp [wfDocB] at hwf
  | int n => simp [wfDocB] at hwf
  | str s => simp [wfDocB] at hwf
  | list l => simp [wfDocB] at hwf

theorem claim_C8_amended_witness :
    ∃ r, validate (.dict [("basics", .dict [("name", .str "C"), ("email", .str "c@x.io")]),
      ("education", .list [.dict [("institution", .str "U")]])]) = some r :=
  claim_C8_amended (.dict [("basics", .dict [("name", .str "C"), ("email", .str "c@x.io")]),
      ("education", .list [.dict [("institution", .str "U")]])]) (by decide)

theorem claim_C7_amended_witness :
    [Value.dict [("include_in", Value.list [.str "all"]),
      ("responsibilities", Value.list [.str "r1", .str "r2", .str "r3", .str "r4", .str "r5"]),
      ("highlights", Value.list [.str "h1", .str "h2", .str "h3"])]] = ([] : List Value) ∨
    ∃ es', [Value.dict [("include_in", Value.list [.str "all"]),
      ("responsibilities", Value.list [.str "r1", .str "r2", .str "r3", .str "r4", .str "r5"]),
      ("highlights", Value.list [.str "h1", .str "h2", .str "h3"])]] = [Value.dict es'] ∧
      dictFind es' "responsibilities" =
        dictFind [("include_in", Value.list [.str "all"]),
          ("responsibilities", Value.list [.str "r1", .str "r2", .str "r3", .str "r4", .str "r5"]),
          ("highlights", Value.list [.str "h1", .str "h2", .str "h3", .str "h4"])]
          "responsibilities" ∧
      ((dictFind [("include_in", Value.list [.str "all"]),
          ("responsibilities", Value.list [.str "r1", .str "r2", .str "r3", .str "r4", .str "r5"]),
          ("highlights", Value.list [.str "h1", .str "h2", .str "h3", .str "h4"])]
          "highlights" = Option.none ∧
        es' = [("include_in", Value.list [.str "all"]),
          ("responsibilities", Value.list [.str "r1", .str "r2", .str "r3", .str "r4", .str "r5"]),
          ("highlights", Value.list [.str "h1", .str "h2", .str "h3", .str "h4"])]) ∨
       (∃ hv hv', dictFind [("include_in", Value.list [.str "all"]),
          ("responsibilities", Value.list [.str "r1", .str "r2", .str "r3", .str "r4", .str "r5"]),
          ("highlights", Value.list [.str "h1", .str "h2", .str "h3", .str "h4"])]
          "highlights" = some hv ∧
         apply_bullet_limit hv (.int 3) = some hv' ∧
         es' = setItem [("include_in", Value.list [.str "all"]),
          ("responsibilities", Value.list [.str "r1", .str "r2", .str "r3", .str "r4", .str "r5"]),
          ("highlights", Value.list [.str "h1", .str "h2", .str "h3", .str "h4"])]
          "highlights" hv')) :=
  claim_C7_amended [.str "all"] (.int 3)
    [("include_in", Value.list [.str "all"]),
     ("responsibilities", Value.list [.str "r1", .str "r2", .str "r3", .str "r4", .str "r5"]),
     ("highlights", Value.list [.str "h1", .str "h2", .str "h3", .str "h4"])]
    [Value.dict [("include_in", Value.list [.str "all"]),
      ("responsibilities", Value.list [.str "r1", .str "r2", .str "r3", .str "r4", .str "r5"]),
      ("highlights", Value.list [.str "h1", .str "h2", .str "h3"])]]
    rfl

theorem apply_bullet_limit_none_isSome (v : Value) :
    ∃ v2, apply_bullet_limit v Value.none = some v2 := by
  by_cases htr : pyTruthy v
  · exact ⟨v, by simp [apply_bullet_limit, htr, deepcopy]⟩
  · simp only [Bool.not_eq_true] at htr
    exact ⟨.list [], by simp [apply_bullet_limit, htr]⟩

theorem limitField_none_isSome (es : List (String × Value)) (field : String) :
    ∃ es2, limitField es field Value.none = some es2 := by
  cases hf : dictFind es field with
  | none => exact ⟨es, by simp [limitField, hf]⟩
  | some v =>
    rcases apply_bullet_limit_none_isSome v with ⟨v2, hv2⟩
    exact ⟨setItem es field v2, by simp [limitField, hf, hv2]⟩

/-- C6 amended test -/
theorem claim_C6_amended (es : List (String × Value)) (it : List Value)
    (htag : dictGetD es "include_in" (.list []) = Value.none ∨
            (∃ xs, dictGetD es "include_in" (.list []) = Value.list xs) ∨
            pyTruthy (dictGetD es "include_in" (.list [])) = true) :
    ((∃ q, fwePosition it Value.none (.dict es) = some [q]) ↔
     (∃ q, filterItemsStep it (.dict es) = some [q])) := by
  have hnorm : normalizePosTags (dictGetD es "include_in" (.list [])) =
      normalizeItemTags (dictGetD es "include_in" (.list [])) := by
    rcases htag with h | ⟨xs, h⟩ | h
    · rw [h]; rfl
    · rw [h]; rfl
    · cases hv : dictGetD es "include_in" (.list []) with
      | none => rfl
      | list xs => rfl
      | bool b => rw [hv] at h; simp [normalizePosTags, normalizeItemTags, h]
      | int n => rw [hv] at h; simp [normalizePosTags, normalizeItemTags, h]
      | str s => rw [hv] at h; simp [normalizePosTags, normalizeItemTags, h]
      | dict d => rw [hv] at h; simp [normalizePosTags, normalizeItemTags, h]
  simp only [fwePosition, filterItemsStep, hnorm, deepcopy]
  by_cases hh : hashableAll (normalizeItemTags (dictGetD es "include_in" (.list []))) = true
  · rw [if_pos hh, if_pos hh]
    by_cases hint : setInterNB (normalizeItemTags (dictGetD es "include_in" (.list []))) it = true
    · have hkeep : (setInterNB (normalizeItemTags (dictGetD es "include_in" (.list []))) it ||
          ((normalizeItemTags (dictGetD es "include_in" (.list []))).isEmpty &&
            containsAll it)) = true := by simp [hint]
      rw [if_pos hkeep, if_pos hint]
      rcases limitField_none_isSome es "responsibilities" with ⟨es1, hes1⟩
      rcases limitField_none_isSome es1 "highlights" with ⟨es2, hes2⟩
      simp only [hes1, Option.bind_eq_bind, Option.some_bind, hes2]
      exact ⟨fun _ => ⟨_, rfl⟩, fun _ => ⟨_, rfl⟩⟩
    · have hint' : setInterNB (normalizeItemTags (dictGetD es "include_in" (.list []))) it
          = false := by
        cases hb : setInterNB (normalizeItemTags (dictGetD es "include_in" (.list []))) it
        · rfl
        · exact absurd hb hint
      rw [if_neg hint]
      by_cases hrest : ((normalizeItemTags (dictGetD es "include_in" (.list []))).isEmpty &&
          containsAll it) = true
      · have hkeep : (setInterNB (normalizeItemTags (dictGetD es "include_in" (.list []))) it ||
            ((normalizeItemTags (dictGetD es "include_in" (.list []))).isEmpty &&
              containsAll it)) = true := by simp [hrest]
        rw [if_pos hkeep, if_pos hrest]
        rcases limitField_none_isSome es "responsibilities" with ⟨es1, hes1⟩
        rcases limitField_none_isSome es1 "highlights" with ⟨es2, hes2⟩
        simp only [hes1, Option.bind_eq_bind, Option.some_bind, hes2]
        exact ⟨fun _ => ⟨_, rfl⟩, fun _ => ⟨_, rfl⟩⟩
      · have hkeep : (setInterNB (normalizeItemTags (dictGetD es "include_in" (.list []))) it ||
            ((normalizeItemTags (dictGetD es "include_in" (.list []))).isEmpty &&
              containsAll it)) = false := by
          simp only [Bool.or_eq_false_iff]
          constructor
          · exact hint'
          · cases hb : ((normalizeItemTags (dictGetD es "include_in" (.list []))).isEmpty &&
                containsAll it)
            · rfl
            · exact absurd hb hrest
        rw [if_neg (by simp [hkeep]), if_neg hrest]
        constructor
        · rintro ⟨q, hq⟩
          cases (Option.some.inj hq)
        · rintro ⟨q, hq⟩
          cases (Option.some.inj hq)
  · rw [if_neg hh, if_neg hh]

theorem claim_C6_amended_witness :
    ((∃ q, fwePosition [.str "all"] Value.none
        (.dict [("include_in", .list [.str "all"])]) = some [q]) ↔
     (∃ q, filterItemsStep [.str "all"]
        (.dict [("include_in", .list [.str "all"])]) = some [q])) :=
  claim_C6_amended [("include_in", .list [.str "all"])] [.str "all"]
    (Or.inr (Or.inl ⟨[.str "all"], rfl⟩))

theorem abl_eq (v m : Value) : apply_bullet_limit v m =
    (if pyTruthy v = false then some (.list [])
     else match m with
       | .none => some v
       | mm => match pyToInt mm with
         | some k => if k ≤ 0 then some v else pySliceTo v k
         | Option.none => Option.none) := by
  by_cases htr : pyTruthy v = true
  · rw [if_neg (by simp [htr])]
    cases m with
    | none => simp [apply_bullet_limit, htr, deepcopy]
    | bool b =>
      simp only [apply_bullet_limit, htr, Bool.not_true, Bool.false_eq_true, if_false,
        deepcopy, pyToInt, Option.pure_def, Option.bind_eq_bind, Option.some_bind]
    | int n =>
      simp only [apply_bullet_limit, htr, Bool.not_true, Bool.false_eq_true, if_false,
        deepcopy, pyToInt, Option.pure_def, Option.bind_eq_bind, Option.some_bind]
    | str s =>
      simp only [apply_bullet_limit, htr, Bool.not_true, Bool.false_eq_true, if_false,
        deepcopy, pyToInt, Option.pure_def, Option.bind_eq_bind, Option.none_bind,
        Option.some_bind]
    | list l =>
      simp only [apply_bullet_limit, htr, Bool.not_true, Bool.false_eq_true, if_false,
        deepcopy, pyToInt, Option.pure_def, Option.bind_eq_bind, Option.none_bind,
        Option.some_bind]
    | dict d =>
      simp only [apply_bullet_limit, htr, Bool.not_true, Bool.false_eq_true, if_false,
        deepcopy, pyToInt, Option.pure_def, Option.bind_eq_bind, Option.none_bind,
        Option.some_bind]
  · simp only [Bool.not_eq_true] at htr
    rw [if_pos htr]
    simp [apply_bullet_limit, htr]

theorem take_idem_toNat (xs : List Value) (k : Int) :
    (xs.take k.toNat).take k.toNat = xs.take k.toNat := by
  simp [List.take_take]

theorem abl_idem (v m v2 : Value) (h : apply_bullet_limit v m = some v2) :
    apply_bullet_limit v2 m = some v2 := by
  rw [abl_eq] at h
  rw [abl_eq]
  by_cases htr : pyTruthy v = false
  · rw [if_pos htr] at h
    have : Value.list [] = v2 := Option.some.inj h
    subst this
    simp [pyTruthy]
  · rw [if_neg htr] at h
    cases m with
    | none =>
      have : v = v2 := Option.some.inj h
      subst this
      rw [if_neg htr]
    | bool b =>
      simp only [pyToInt] at h ⊢
      by_cases hk : (if b = true then (1 : Int) else 0) ≤ 0
      · rw [if_pos hk] at h
        have : v = v2 := Option.some.inj h
        subst this
        rw [if_neg htr, if_pos hk]
      · rw [if_neg hk] at h
        cases v with
        | str s =>
          simp only [pySliceTo, Option.some.injEq] at h
          subst h
          have hs : s ≠ "" := by
            intro hc; subst hc; exact htr rfl
          have hne2 : pyTruthy (Value.str (String.mk
              (s.toList.take (if b = true then (1 : Int) else 0).toNat))) = true := by
            cases b with
            | false => simp at hk
            | true =>
              simp only [pyTruthy, if_true]
              cases hsl : s.toList with
              | nil => exact absurd (by cases s; simp_all) hs
              | cons c cs => simp [hsl, String.ext_iff]
          rw [if_neg (by simpa using hne2)]
          rw [if_neg hk]
          simp [pySliceTo, List.take_take]
        | list xs =>
          simp only [pySliceTo, Option.some.injEq] at h
          subst h
          have hxs : xs ≠ [] := by
            intro hc; subst hc; exact htr rfl
          have hne2 : pyTruthy (Value.list
              (xs.take (if b = true then (1 : Int) else 0).toNat)) = true := by
            cases b with
            | false => simp at hk
            | true =>
              simp only [pyTruthy, if_true]
              cases xs with
              | nil => exact absurd rfl hxs
              | cons a l => simp
          rw [if_neg (by simpa using hne2)]
          rw [if_neg hk]
          simp [pySliceTo, List.take_take]
        | none => simp [pySliceTo] at h
        | bool c => simp [pySliceTo] at h
        | int n => simp [pySliceTo] at h
        | dict d => simp [pySliceTo] at h
    | int n =>
      simp only [pyToInt] at h ⊢
      by_cases hk : n ≤ 0
      · rw [if_pos hk] at h
        have : v = v2 := Option.some.inj h
        subst this
        rw [if_neg htr, if_pos hk]
      · rw [if_neg hk] at h
        cases v with
        | str s =>
          simp only [pySliceTo, Option.some.injEq] at h
          subst h
          have hs : s ≠ "" := by
            intro hc; subst hc; exact htr rfl
          have hne2 : pyTruthy (Value.str (String.mk (s.toList.take n.toNat))) = true := by
            have hn1 : 1 ≤ n.toNat := by omega
            simp only [pyTruthy]
            cases hsl : s.toList with
            | nil => exact absurd (by cases s; simp_all) hs
            | cons c cs =>
              cases hnn : n.toNat with
              | zero => omega
              | succ j => simp [hsl, hnn, String.ext_iff]
          rw [if_neg (by simpa using hne2)]
          rw [if_neg hk]
          simp [pySliceTo, List.take_take]
        | list xs =>
          simp only [pySliceTo, Option.some.injEq] at h
          subst h
          have hxs : xs ≠ [] := by
            intro hc; subst hc; exact htr rfl
          have hne2 : pyTruthy (Value.list (xs.take n.toNat)) = true := by
            have hn1 : 1 ≤ n.toNat := by omega
            simp only [pyTruthy]
            cases xs with
            | nil => exact absurd rfl hxs
            | cons a l =>
              cases hnn : n.toNat with
              | zero => omega
              | succ j => simp [hnn]
          rw [if_neg (by simpa using hne2)]
          rw [if_neg hk]
          simp [pySliceTo, List.take_take]
        | none => simp [pySliceTo] at h
        | bool c => simp [pySliceTo] at h
        | int nn => simp [pySliceTo] at h
        | dict d => simp [pySliceTo] at h
    | str s => simp [pyToInt] at h
    | list l => simp [pyToInt] at h
    | dict d => simp [pyToInt] at h

theorem filterItemsLoop_keepAll (t : List Value) (xs : List Value)
    (h : ∀ x ∈ xs, filterItemsStep t x = some [x]) :
    filterItemsLoop t xs = some xs := by
  induction xs with
  | nil => rfl
  | cons y ys ih =>
    simp only [filterItemsLoop, h y (List.mem_cons_self _ _), Option.bind_eq_bind,
      Option.some_bind, ih (fun x hx => h x (List.mem_cons_of_mem _ hx))]
    rfl

theorem filterItemsLoop_out_kept (t : List Value) (xs out : List Value)
    (h : filterItemsLoop t xs = some out) :
    ∀ y ∈ out, filterItemsStep t y = some [y] := by
  intro y hy
  obtain ⟨x, _, rfl, hs⟩ := (filterItemsLoop_mem t xs out h y).mp hy
  exact hs

theorem filter_items_tags_facts (items : Value) (t : List Value) (out : List Value)
    (h : filter_items items t = some out) (hne : out ≠ []) :
    t ≠ [] ∧ hashableAll t = true := by
  by_cases htr : pyTruthy items = true
  · by_cases hte : t.isEmpty
    · simp only [filter_items, htr, Bool.not_true, Bool.false_eq_true, if_false, hte,
        if_true] at h
      exact absurd (Option.some.inj h).symm hne
    · constructor
      · intro hc; subst hc; simp at hte
      · by_cases hh : hashableAll t
        · exact hh
        · exfalso
          simp only [filter_items, htr, Bool.not_true, Bool.false_eq_true, if_false, hte,
            hh, Bool.not_false, if_true, Option.bind_eq_bind] at h
          exact absurd (show (Option.none : Option (List Value)) = some out from h) (by simp)
  · simp only [Bool.not_eq_true] at htr
    simp only [filter_items, htr, Bool.not_false, if_true] at h
    exact absurd (Option.some.inj h).symm hne

theorem filter_items_idem (items : Value) (t : List Value) (out : List Value)
    (h : filter_items items t = some out) :
    filter_items (.list out) t = some out := by
  by_cases hne : out = []
  · subst hne; rfl
  · obtain ⟨htne, hhash⟩ := filter_items_tags_facts items t out h hne
    have htr : pyTruthy items = true := by
      by_cases htr : pyTruthy items = true
      · exact htr
      · exfalso
        simp only [Bool.not_eq_true] at htr
        simp only [filter_items, htr, Bool.not_false, if_true] at h
        exact hne (Option.some.inj h).symm
    have hte : t.isEmpty = false := by
      cases t with
      | nil => exact absurd rfl htne
      | cons a t' => rfl
    have hloop : ∃ xs, pyIter items = some xs ∧ filterItemsLoop t xs = some out := by
      simp only [filter_items, htr, Bool.not_true, Bool.false_eq_true, if_false, hte,
        hhash, Bool.not_true, Option.bind_eq_bind] at h
      cases hiter : pyIter items with
      | none => rw [hiter] at h; simp at h
      | some xs =>
        rw [hiter] at h
        simp only [Option.some_bind] at h
        exact ⟨xs, rfl, h⟩
    obtain ⟨xs, hiter, hloop⟩ := hloop
    have hkept := filterItemsLoop_out_kept t xs out hloop
    have htr2 : pyTruthy (Value.list out) = true := by
      cases out with
      | nil => exact absurd rfl hne
      | cons o os => rfl
    simp only [filter_items, htr2, Bool.not_true, Bool.false_eq_true, if_false, hte,
      hhash, pyIter, Option.bind_eq_bind, Option.some_bind]
    exact filterItemsLoop_keepAll t out hkept

theorem setItem_setItem (es : List (String × Value)) (k : String) (v v2 : Value) :
    setItem (setItem es k v) k v2 = setItem es k v2 := by
  induction es with
  | nil => simp [setItem]
  | cons kv rest ih =>
    cases kv with
    | mk k0 v0 =>
      by_cases hk : k0 = k
      · simp [setItem, hk]
      · simp only [setItem, if_neg hk]
        rw [ih]

theorem filterItemsStep_dict_some_iff (t : List Value) (es : List (String × Value)) :
    filterItemsStep t (.dict es) = some [.dict es] ↔
      (hashableAll (normalizeItemTags (dictGetD es "include_in" (.list []))) = true ∧
       (setInterNB (normalizeItemTags (dictGetD es "include_in" (.list []))) t = true ∨
        ((normalizeItemTags (dictGetD es "include_in" (.list []))).isEmpty = true ∧
         containsAll t = true))) := by
  simp only [filterItemsStep, deepcopy]
  by_cases hh : hashableAll (normalizeItemTags (dictGetD es "include_in" (.list []))) = true
  · rw [if_pos hh]
    by_cases hint : setInterNB (normalizeItemTags (dictGetD es "include_in" (.list []))) t = true
    · rw [if_pos hint]
      simp [hh, hint]
    · rw [if_neg hint]
      by_cases hrest : ((normalizeItemTags (dictGetD es "include_in" (.list []))).isEmpty &&
          containsAll t) = true
      · rw [if_pos hrest]
        simp only [Bool.and_eq_true] at hrest
        simp [hh, hint, hrest]
      · rw [if_neg hrest]
        simp only [Bool.and_eq_true] at hrest
        constructor
        · intro hc
          exact absurd (Option.some.inj hc) (by simp)
        · rintro ⟨_, hc | ⟨h1, h2⟩⟩
          · exact absurd hc hint
          · exact absurd ⟨h1, h2⟩ hrest
  · rw [if_neg hh]
    constructor
    · intro hc; cases hc
    · rintro ⟨hc, _⟩; exact absurd hc hh

theorem fp_preserves_step (t : List Value) (m x y : Value)
    (hx : filterItemsStep t x = some [x]) (hfp : fpLimitProject m x = some y) :
    filterItemsStep t y = some [y] := by
  cases x with
  | dict es =>
    cases hfind : dictFind es "highlights" with
    | none =>
      simp only [fpLimitProject, hfind, Option.pure_def, Option.some.injEq] at hfp
      rw [← hfp]
      exact hx
    | some hv =>
      simp only [fpLimitProject, hfind, Option.bind_eq_bind] at hfp
      cases habl : apply_bullet_limit hv m with
      | none => rw [habl] at hfp; simp at hfp
      | some hv2 =>
        rw [habl] at hfp
        simp only [Option.some_bind, Option.pure_def, Option.some.injEq] at hfp
        rw [← hfp]
        rw [filterItemsStep_dict_some_iff] at hx
        rw [filterItemsStep_dict_some_iff]
        have heq : dictGetD (setItem es "highlights" hv2) "include_in" (.list []) =
            dictGetD es "include_in" (.list []) := by
          simp only [dictGetD, dictFind_setItem_other es "highlights" "include_in" hv2
            (by decide)]
        rw [heq]
        exact hx
  | none => simp only [fpLimitProject, Option.pure_def, Option.some.injEq] at hfp; rw [← hfp]; exact hx
  | bool b => simp only [fpLimitProject, Option.pure_def, Option.some.injEq] at hfp; rw [← hfp]; exact hx
  | int n => simp only [fpLimitProject, Option.pure_def, Option.some.injEq] at hfp; rw [← hfp]; exact hx
  | str s => simp only [fpLimitProject, Option.pure_def, Option.some.injEq] at hfp; rw [← hfp]; exact hx
  | list l => simp only [fpLimitProject, Option.pure_def, Option.some.injEq] at hfp; rw [← hfp]; exact hx

theorem fp_idem (m x y : Value) (hfp : fpLimitProject m x = some y) :
    fpLimitProject m y = some y := by
  cases x with
  | dict es =>
    cases hfind : dictFind es "highlights" with
    | none =>
      simp only [fpLimitProject, hfind, Option.pure_def, Option.some.injEq] at hfp
      rw [← hfp]
      simp [fpLimitProject, hfind]
    | some hv =>
      simp only [fpLimitProject, hfind, Option.bind_eq_bind] at hfp
      cases habl : apply_bullet_limit hv m with
      | none => rw [habl] at hfp; simp at hfp
      | some hv2 =>
        rw [habl] at hfp
        simp only [Option.some_bind, Option.pure_def, Option.some.injEq] at hfp
        rw [← hfp]
        simp only [fpLimitProject, dictFind_setItem_self es "highlights" hv2,
          abl_idem hv m hv2 habl, Option.bind_eq_bind, Option.some_bind,
          setItem_setItem, Option.pure_def]
  | none =>
    simp only [fpLimitProject, Option.pure_def, Option.some.injEq] at hfp
    rw [← hfp]; rfl
  | bool b =>
    simp only [fpLimitProject, Option.pure_def, Option.some.injEq] at hfp
    rw [← hfp]; rfl
  | int n =>
    simp only [fpLimitProject, Option.pure_def, Option.some.injEq] at hfp
    rw [← hfp]; rfl
  | str s =>
    simp only [fpLimitProject, Option.pure_def, Option.some.injEq] at hfp
    rw [← hfp]; rfl
  | list l =>
    simp only [fpLimitProject, Option.pure_def, Option.some.injEq] at hfp
    rw [← hfp]; rfl

theorem fpLimitLoop_mem (m : Value) (l out : List Value)
    (h : fpLimitLoop m l = some out) :
    ∀ y ∈ out, ∃ x ∈ l, fpLimitProject m x = some y := by
  induction l generalizing out with
  | nil =>
    have : ([] : List Value) = out := Option.some.inj h
    subst this
    intro y hy; cases hy
  | cons x xs ih =>
    simp only [fpLimitLoop, Option.bind_eq_bind] at h
    cases hfp : fpLimitProject m x with
    | none => rw [hfp] at h; simp at h
    | some y0 =>
      rw [hfp] at h
      simp only [Option.some_bind] at h
      cases hloop : fpLimitLoop m xs with
      | none => rw [hloop] at h; simp at h
      | some tail =>
        rw [hloop] at h
        have h2 : y0 :: tail = out := Option.some.inj h
        subst h2
        intro y hy
        cases hy with
        | head => exact ⟨x, List.mem_cons_self _ _, hfp⟩
        | tail _ hy2 =>
          obtain ⟨x2, hx2, hfp2⟩ := ih tail hloop y hy2
          exact ⟨x2, List.mem_cons_of_mem _ hx2, hfp2⟩

theorem fpLimitLoop_keepAll (m : Value) (l : List Value)
    (h : ∀ y ∈ l, fpLimitProject m y = some y) : fpLimitLoop m l = some l := by
  induction l with
  | nil => rfl
  | cons y ys ih =>
    simp only [fpLimitLoop, h y (List.mem_cons_self _ _), Option.bind_eq_bind,
      Option.some_bind, ih (fun x hx => h x (List.mem_cons_of_mem _ hx))]
    rfl

theorem filter_items_of_kept (t : List Value) (out : List Value)
    (htne : t ≠ []) (hhash : hashableAll t = true)
    (hk : ∀ y ∈ out, filterItemsStep t y = some [y]) :
    filter_items (.list out) t = some out := by
  cases out with
  | nil => rfl
  | cons o os =>
    have hte : t.isEmpty = false := by
      cases t with
      | nil => exact absurd rfl htne
      | cons a t' => rfl
    simp only [filter_items, pyTruthy, List.isEmpty_cons, Bool.not_false, Bool.not_true,
      Bool.false_eq_true, if_false, hte, hhash, pyIter, Option.bind_eq_bind,
      Option.some_bind]
    exact filterItemsLoop_keepAll t (o :: os) hk

theorem filter_items_out_kept (items : Value) (t : List Value) (out : List Value)
    (h : filter_items items t = some out) :
    ∀ y ∈ out, filterItemsStep t y = some [y] := by
  cases hout : out with
  | nil => intro y hy; cases hy
  | cons o os =>
    subst hout
    have hne : o :: os ≠ ([] : List Value) := by simp
    obtain ⟨htne, hhash⟩ := filter_items_tags_facts items t _ h hne
    have htr : pyTruthy items = true := by
      by_cases htr : pyTruthy items = true
      · exact htr
      · exfalso
        simp only [Bool.not_eq_true] at htr
        simp only [filter_items, htr, Bool.not_false, if_true] at h
        exact hne (Option.some.inj h).symm
    have hte : t.isEmpty = false := by
      cases t with
      | nil => exact absurd rfl htne
      | cons a t' => rfl
    have hloop : ∃ xs, pyIter items = some xs ∧ filterItemsLoop t xs = some (o :: os) := by
      simp only [filter_items, htr, Bool.not_true, Bool.false_eq_true, if_false, hte,
        hhash, Option.bind_eq_bind] at h
      cases hiter : pyIter items with
      | none => rw [hiter] at h; simp at h
      | some xs =>
        rw [hiter] at h
        simp only [Option.some_bind] at h
        exact ⟨xs, rfl, h⟩
    obtain ⟨xs, _, hloop⟩ := hloop
    exact filterItemsLoop_out_kept t xs _ hloop

theorem filter_projects_idem (p : Value) (t : List Value) (m : Value) (out : List Value)
    (h : filter_projects p t m = some out) :
    filter_projects (.list out) t m = some out := by
  simp only [filter_projects, Option.bind_eq_bind] at h
  cases hfi : filter_items p t with
  | none => rw [hfi] at h; simp at h
  | some l1 =>
    rw [hfi] at h
    simp only [Option.some_bind] at h
    have htail : ∀ k : Int, (pyToInt m = some k) → ¬ k ≤ 0 →
        fpLimitLoop m l1 = some out →
        filter_projects (.list out) t m = some out := by
      intro k hk hkpos hloop
      have hkeptout : ∀ y ∈ out, filterItemsStep t y = some [y] := by
        intro y hy
        obtain ⟨x, hx, hfp⟩ := fpLimitLoop_mem m l1 out hloop y hy
        exact fp_preserves_step t m x y (filter_items_out_kept p t l1 hfi x hx) hfp
      have hfi2 : filter_items (.list out) t = some out := by
        cases hout : out with
        | nil => rfl
        | cons o os =>
          subst hout
          have hl1ne : l1 ≠ [] := by
            intro hc
            subst hc
            have h2 : ([] : List Value) = o :: os :=
              Option.some.inj (show some ([] : List Value) = some (o :: os) from hloop)
            exact (List.cons_ne_nil o os) h2.symm
          obtain ⟨htne, hhash⟩ := filter_items_tags_facts p t l1 hfi hl1ne
          exact filter_items_of_kept t _ htne hhash hkeptout
      have hfp2 : fpLimitLoop m out = some out := by
        apply fpLimitLoop_keepAll
        intro y hy
        obtain ⟨x, hx, hfp⟩ := fpLimitLoop_mem m l1 out hloop y hy
        exact fp_idem m x y hfp
      cases m with
      | none => simp [pyToInt] at hk
      | bool b =>
        simp only [filter_projects, hfi2, Option.bind_eq_bind, Option.some_bind, hk,
          if_neg hkpos, hfp2]
      | int n =>
        simp only [filter_projects, hfi2, Option.bind_eq_bind, Option.some_bind, hk,
          if_neg hkpos, hfp2]
      | str s => simp [pyToInt] at hk
      | list l => simp [pyToInt] at hk
      | dict d => simp [pyToInt] at hk
    cases m with
    | none =>
      have : l1 = out := Option.some.inj h
      subst this
      simp only [filter_projects, filter_items_idem p t l1 hfi, Option.bind_eq_bind,
        Option.some_bind]
      rfl
    | bool b =>
      simp only [pyToInt, Option.bind_eq_bind, Option.some_bind] at h
      by_cases hk : (if b = true then (1 : Int) else 0) ≤ 0
      · rw [if_pos hk] at h
        have : l1 = out := Option.some.inj h
        subst this
        simp only [filter_projects, filter_items_idem p t l1 hfi, Option.bind_eq_bind,
          Option.some_bind, pyToInt, if_pos hk]
        rfl
      · rw [if_neg hk] at h
        exact htail _ rfl hk h
    | int n =>
      simp only [pyToInt, Option.bind_eq_bind, Option.some_bind] at h
      by_cases hk : n ≤ 0
      · rw [if_pos hk] at h
        have : l1 = out := Option.some.inj h
        subst this
        simp only [filter_projects, filter_items_idem p t l1 hfi, Option.bind_eq_bind,
          Option.some_bind, pyToInt, if_pos hk]
        rfl
      · rw [if_neg hk] at h
        exact htail _ rfl hk h
    | str s => simp [pyToInt] at h
    | list l => simp [pyToInt] at h
    | dict d => simp [pyToInt] at h

theorem limitField_cases (es : List (String × Value)) (f : String) (m : Value)
    (es2 : List (String × Value)) (h : limitField es f m = some es2) :
    (dictFind es f = Option.none ∧ es2 = es) ∨
    (∃ v v2, dictFind es f = some v ∧ apply_bullet_limit v m = some v2 ∧
      es2 = setItem es f v2) := by
  cases hf : dictFind es f with
  | none =>
    simp only [limitField, hf, Option.pure_def, Option.some.injEq] at h
    exact Or.inl ⟨rfl, h.symm⟩
  | some v =>
    simp only [limitField, hf, Option.bind_eq_bind] at h
    cases habl : apply_bullet_limit v m with
    | none => rw [habl] at h; simp at h
    | some v2 =>
      rw [habl] at h
      simp only [Option.some_bind, Option.pure_def, Option.some.injEq] at h
      exact Or.inr ⟨v, v2, rfl, habl, h.symm⟩

theorem limitField_self (es : List (String × Value)) (f : String) (m : Value)
    (h : ∀ v, dictFind es f = some v → apply_bullet_limit v m = some v) :
    limitField es f m = some es := by
  cases hf : dictFind es f with
  | none => simp [limitField, hf]
  | some v => simp [limitField, hf, h v hf, setItem_find_self es f v hf]

theorem limitField_find_other (es : List (String × Value)) (f : String) (m : Value)
    (es2 : List (String × Value)) (k : String) (h : limitField es f m = some es2)
    (hk : k ≠ f) : dictFind es2 k = dictFind es k := by
  rcases limitField_cases es f m es2 h with ⟨_, rfl⟩ | ⟨v, v2, _, _, rfl⟩
  · rfl
  · exact dictFind_setItem_other es f k v2 hk

theorem fwePosition_shape (t : List Value) (m p : Value) (add : List Value)
    (h : fwePosition t m p = some add) : add = [] ∨ ∃ q, add = [q] := by
  cases p with
  | dict es =>
    simp only [fwePosition] at h
    split at h
    · split at h
      · simp only [Option.bind_eq_bind] at h
        cases h1 : limitField es "responsibilities" m with
        | none => rw [h1] at h; simp at h
        | some es1 =>
          rw [h1] at h
          simp only [Option.some_bind] at h
          cases h2 : limitField es1 "highlights" m with
          | none => rw [h2] at h; simp at h
          | some es2 =>
            rw [h2] at h
            simp only [Option.some_bind, Option.pure_def, Option.some.injEq] at h
            exact Or.inr ⟨.dict es2, h.symm⟩
      · exact Or.inl (Option.some.inj h).symm
    · cases h
  | none => exact Or.inl (Option.some.inj h).symm
  | bool b => exact Or.inl (Option.some.inj h).symm
  | int n => exact Or.inl (Option.some.inj h).symm
  | str s => exact Or.inl (Option.some.inj h).symm
  | list l => exact Or.inl (Option.some.inj h).symm

theorem fwePosition_idem (t : List Value) (m p : Value) (add : List Value)
    (h : fwePosition t m p = some add) :
    ∀ q ∈ add, fwePosition t m q = some [q] := by
  cases p with
  | dict es =>
    simp only [fwePosition] at h
    split at h
    case isFalse => cases h
    case isTrue hhash =>
    split at h
    case isFalse =>
      have : ([] : List Value) = add := Option.some.inj h
      subst this
      intro q hq; cases hq
    case isTrue hkeep =>
    simp only [Option.bind_eq_bind] at h
    cases h1 : limitField es "responsibilities" m with
    | none => rw [h1] at h; simp at h
    | some es1 =>
      rw [h1] at h
      simp only [Option.some_bind] at h
      cases h2 : limitField es1 "highlights" m with
      | none => rw [h2] at h; simp at h
      | some es2 =>
        rw [h2] at h
        simp only [Option.some_bind, Option.pure_def, Option.some.injEq] at h
        subst h
        intro q hq
        cases hq with
        | tail _ hq2 => cases hq2
        | head =>
          have htagsp : dictGetD es2 "include_in" (.list []) =
              dictGetD es "include_in" (.list []) := by
            simp only [dictGetD,
              limitField_find_other es1 "highlights" m es2 "include_in" h2 (by decide),
              limitField_find_other es "responsibilities" m es1 "include_in" h1 (by decide)]
          have hrespfind : dictFind es2 "responsibilities" = dictFind es1 "responsibilities" :=
            limitField_find_other es1 "highlights" m es2 "responsibilities" h2 (by decide)
          have hlf1 : limitField es2 "responsibilities" m = some es2 := by
            apply limitField_self
            intro v hv
            rcases limitField_cases es "responsibilities" m es1 h1 with
              ⟨hn, rfl⟩ | ⟨w, w2, hw, hablw, rfl⟩
            · rw [hrespfind, hn] at hv; cases hv
            · rw [hrespfind, dictFind_setItem_self es "responsibilities" w2] at hv
              have : w2 = v := Option.some.inj hv
              subst this
              exact abl_idem w m w2 hablw
          have hlf2 : limitField es2 "highlights" m = some es2 := by
            apply limitField_self
            intro v hv
            rcases limitField_cases es1 "highlights" m es2 h2 with
              ⟨hn, heq⟩ | ⟨w, w2, hw, hablw, heq⟩
            · rw [heq, hn] at hv; cases hv
            · rw [heq, dictFind_setItem_self es1 "highlights" w2] at hv
              have : w2 = v := Option.some.inj hv
              subst this
              exact abl_idem w m w2 hablw
          simp only [fwePosition, htagsp]
          rw [if_pos hhash, if_pos hkeep]
          simp only [hlf1, Option.bind_eq_bind, Option.some_bind, hlf2, Option.pure_def]
  | none =>
    have : ([] : List Value) = add := Option.some.inj h
    subst this
    intro q hq; cases hq
  | bool b =>
    have : ([] : List Value) = add := Option.some.inj h
    subst this
    intro q hq; cases hq
  | int n =>
    have : ([] : List Value) = add := Option.some.inj h
    subst this
    intro q hq; cases hq
  | str s =>
    have : ([] : List Value) = add := Option.some.inj h
    subst this
    intro q hq; cases hq
  | list l =>
    have : ([] : List Value) = add := Option.some.inj h
    subst this
    intro q hq; cases hq

theorem fwePositions_out_kept (t : List Value) (m : Value) (ps out : List Value)
    (h : fwePositions t m ps = some out) :
    ∀ q ∈ out, fwePosition t m q = some [q] := by
  induction ps generalizing out with
  | nil =>
    have : ([] : List Value) = out := Option.some.inj h
    subst this
    intro q hq; cases hq
  | cons p rest ih =>
    simp only [fwePositions, Option.bind_eq_bind] at h
    cases hstep : fwePosition t m p with
    | none => rw [hstep] at h; simp at h
    | some add =>
      rw [hstep] at h
      simp only [Option.some_bind] at h
      cases hloop : fwePositions t m rest with
      | none => rw [hloop] at h; simp at h
      | some tail =>
        rw [hloop] at h
        simp only [Option.some_bind, Option.pure_def, Option.some.injEq] at h
        subst h
        intro q hq
        rcases List.mem_append.mp hq with hq1 | hq2
        · exact fwePosition_idem t m p add hstep q hq1
        · exact ih tail hloop q hq2

theorem fwePositions_keepAll (t : List Value) (m : Value) (ps : List Value)
    (h : ∀ q ∈ ps, fwePosition t m q = some [q]) :
    fwePositions t m ps = some ps := by
  induction ps with
  | nil => rfl
  | cons q rest ih =>
    simp only [fwePositions, h q (List.mem_cons_self _ _), Option.bind_eq_bind,
      Option.some_bind, ih (fun x hx => h x (List.mem_cons_of_mem _ hx))]
    rfl

theorem setItem_append_of_not_mem (es : List (String × Value)) (k : String) (v : Value)
    (h : ∀ kv ∈ es, kv.1 ≠ k) : setItem es k v = es ++ [(k, v)] := by
  induction es with
  | nil => rfl
  | cons kv rest ih =>
    cases kv with
    | mk k0 v0 =>
      have hne : k0 ≠ k := h (k0, v0) (List.mem_cons_self _ _)
      simp only [setItem, if_neg hne, List.cons_append, List.cons.injEq, true_and]
      exact ih (fun kv hkv => h kv (List.mem_cons_of_mem _ hkv))

theorem mem_setItem (es : List (String × Value)) (k : String) (v : Value)
    (kv : String × Value) (h : kv ∈ setItem es k v) : kv ∈ es ∨ kv = (k, v) := by
  induction es with
  | nil =>
    simp only [setItem] at h
    rcases List.mem_singleton.mp h with rfl
    exact Or.inr rfl
  | cons kv0 rest ih =>
    cases kv0 with
    | mk k0 v0 =>
      by_cases hk : k0 = k
      · simp only [setItem, if_pos hk] at h
        rcases List.mem_cons.mp h with rfl | h2
        · exact Or.inr rfl
        · exact Or.inl (List.mem_cons_of_mem _ h2)
      · simp only [setItem, if_neg hk] at h
        rcases List.mem_cons.mp h with rfl | h2
        · exact Or.inl (List.mem_cons_self _ _)
        · rcases ih h2 with h3 | h3
          · exact Or.inl (List.mem_cons_of_mem _ h3)
          · exact Or.inr h3

theorem keys_setItem_nodup (es : List (String × Value)) (k : String) (v : Value)
    (h : (es.map Prod.fst).Nodup) : ((setItem es k v).map Prod.fst).Nodup := by
  induction es with
  | nil => simp [setItem]
  | cons kv rest ih =>
    cases kv with
    | mk k0 v0 =>
      simp only [List.map_cons, List.nodup_cons] at h
      obtain ⟨hk0, hrest⟩ := h
      by_cases hk : k0 = k
      · subst hk
        have hset : setItem ((k0, v0) :: rest) k0 v = (k0, v) :: rest := by
          simp [setItem]
        rw [hset, List.map_cons, List.nodup_cons]
        exact ⟨hk0, hrest⟩
      · simp only [setItem, if_neg hk, List.map_cons, List.nodup_cons]
        constructor
        · intro hc
          rcases List.mem_map.mp hc with ⟨kv2, hkv2, hfst⟩
          rcases mem_setItem rest k v kv2 hkv2 with h3 | h3
          · exact hk0 (List.mem_map.mpr ⟨kv2, h3, hfst⟩)
          · subst h3
            exact hk hfst.symm
        · exact ih hrest

theorem fweCompanies_props (t : List Value) (m : Value)
    (cs : List (String × Value)) :
    ∀ (acc w' : List (String × Value)),
    (∀ kv ∈ acc, ∃ l, kv.2 = Value.list l ∧ l ≠ [] ∧ fwePositions t m l = some l) →
    (acc.map Prod.fst).Nodup →
    fweCompanies t m acc cs = some w' →
    (∀ kv ∈ w', ∃ l, kv.2 = Value.list l ∧ l ≠ [] ∧ fwePositions t m l = some l)
    ∧ (w'.map Prod.fst).Nodup := by
  induction cs with
  | nil =>
    intro acc w' hprops hnodup h
    have : acc = w' := Option.some.inj h
    subst this
    exact ⟨hprops, hnodup⟩
  | cons kv rest ih =>
    intro acc w' hprops hnodup h
    cases kv with
    | mk company positions =>
      cases positions with
      | list ps =>
        simp only [fweCompanies, Option.bind_eq_bind] at h
        cases hps : fwePositions t m ps with
        | none => rw [hps] at h; simp at h
        | some fps =>
          rw [hps] at h
          simp only [Option.some_bind] at h
          by_cases hemp : fps.isEmpty
          · rw [if_pos hemp] at h
            exact ih acc w' hprops hnodup h
          · rw [if_neg hemp] at h
            apply ih (setItem acc company (.list fps)) w' _ _ h
            · intro kv2 hkv2
              rcases mem_setItem acc company (.list fps) kv2 hkv2 with h2 | h2
              · exact hprops kv2 h2
              · subst h2
                refine ⟨fps, rfl, ?_, ?_⟩
                · intro hc; subst hc; exact hemp rfl
                · exact fwePositions_keepAll t m fps
                    (fwePositions_out_kept t m ps fps hps)
            · exact keys_setItem_nodup acc company (.list fps) hnodup
      | none => exact ih acc w' hprops hnodup h
      | bool b => exact ih acc w' hprops hnodup h
      | int n => exact ih acc w' hprops hnodup h
      | str s => exact ih acc w' hprops hnodup h
      | dict d => exact ih acc w' hprops hnodup h

theorem fweCompanies_self (t : List Value) (m : Value) (cs : List (String × Value)) :
    ∀ (acc : List (String × Value)),
    (∀ kv ∈ cs, ∃ l, kv.2 = Value.list l ∧ l ≠ [] ∧ fwePositions t m l = some l) →
    (∀ kv ∈ cs, ∀ kv2 ∈ acc, kv.1 ≠ kv2.1) →
    ((cs.map Prod.fst).Nodup) →
    fweCompanies t m acc cs = some (acc ++ cs) := by
  induction cs with
  | nil => intro acc _ _ _; simp [fweCompanies]
  | cons kv rest ih =>
    intro acc hvals hdisj hnodup
    cases kv with
    | mk c v =>
      obtain ⟨l, hv, hlne, hself⟩ := hvals (c, v) (List.mem_cons_self _ _)
      simp only at hv
      subst hv
      simp only [fweCompanies, hself, Option.bind_eq_bind, Option.some_bind]
      have hileft : l.isEmpty = false := by
        cases l with
        | nil => exact absurd rfl hlne
        | cons a b => rfl
      rw [hileft]
      simp only [Bool.false_eq_true, if_false]
      have hset : setItem acc c (.list l) = acc ++ [(c, .list l)] :=
        setItem_append_of_not_mem acc c (.list l)
          (fun kv2 hkv2 => (hdisj (c, .list l) (List.mem_cons_self _ _) kv2 hkv2).symm)
      rw [hset]
      have := ih (acc ++ [(c, .list l)])
        (fun kv2 hkv2 => hvals kv2 (List.mem_cons_of_mem _ hkv2))
        (by
          intro kv2 hkv2 kv3 hkv3
          rcases List.mem_append.mp hkv3 with h3 | h3
          · exact hdisj kv2 (List.mem_cons_of_mem _ hkv2) kv3 h3
          · rcases List.mem_singleton.mp h3 with rfl
            simp only [List.map_cons, List.nodup_cons] at hnodup
            intro hc
            exact hnodup.1 (List.mem_map.mpr ⟨kv2, hkv2, by simpa using hc⟩))
        (by
          simp only [List.map_cons, List.nodup_cons] at hnodup
          exact hnodup.2)
      rw [this]
      simp

theorem fwe_idem (w : Value) (t : List Value) (m : Value) (w' : List (String × Value))
    (h : filter_work_experience w t m = some w') :
    filter_work_experience (.dict w') t m = some w' := by
  by_cases hne : w' = []
  · subst hne; rfl
  · have hfacts : hashableAll t = true ∧
        ∃ cs, w = Value.dict cs ∧ fweCompanies t m [] cs = some w' := by
      by_cases htr : pyTruthy w = true
      · cases w with
        | dict cs =>
          simp only [filter_work_experience, htr, Bool.not_true, Bool.false_eq_true,
            if_false] at h
          by_cases hh : hashableAll t = true
          · rw [if_neg (by simp [hh])] at h
            exact ⟨hh, cs, rfl, h⟩
          · exfalso
            simp only [Bool.not_eq_true] at hh
            rw [hh] at h
            exact absurd (show (Option.none : Option (List (String × Value))) = some w'
              from h) (by simp)
        | none => simp [pyTruthy] at htr
        | bool b =>
          simp only [filter_work_experience, htr, Bool.not_true, Bool.false_eq_true,
            if_false] at h
          exact absurd (Option.some.inj h).symm hne
        | int n =>
          simp only [filter_work_experience, htr, Bool.not_true, Bool.false_eq_true,
            if_false] at h
          exact absurd (Option.some.inj h).symm hne
        | str s =>
          simp only [filter_work_experience, htr, Bool.not_true, Bool.false_eq_true,
            if_false] at h
          exact absurd (Option.some.inj h).symm hne
        | list l =>
          simp only [filter_work_experience, htr, Bool.not_true, Bool.false_eq_true,
            if_false] at h
          exact absurd (Option.some.inj h).symm hne
      · exfalso
        simp only [Bool.not_eq_true] at htr
        simp only [filter_work_experience, htr, Bool.not_false, if_true] at h
        exact hne (Option.some.inj h).symm
    obtain ⟨hhash, cs, hwcs, hcomp⟩ := hfacts
    obtain ⟨hprops, hnodup⟩ := fweCompanies_props t m cs [] w'
      (by intro kv hkv; cases hkv) (by simp) hcomp
    have htr2 : pyTruthy (Value.dict w') = true := by
      cases w' with
      | nil => exact absurd rfl hne
      | cons a b => rfl
    simp only [filter_work_experience, htr2, Bool.not_true, Bool.false_eq_true, if_false]
    rw [if_neg (by simp [hhash])]
    have := fweCompanies_self t m w' [] hprops (by intro kv _ kv2 h2; cases h2) hnodup
    rw [this]
    simp

theorem workJobStep_idem (t : List Value) (m j : Value) (add : List Value)
    (h : workJobStep t m j = some add) :
    ∀ q ∈ add, workJobStep t m q = some [q] := by
  cases j with
  | dict es =>
    simp only [workJobStep] at h
    split at h
    case isFalse => cases h
    case isTrue hhash =>
    split at h
    case isFalse =>
      have : ([] : List Value) = add := Option.some.inj h
      subst this
      intro q hq; cases hq
    case isTrue hkeep =>
    cases hfind : dictFind es "highlights" with
    | none =>
      rw [hfind] at h
      have : some [Value.dict es] = some add := h
      have h2 : [Value.dict es] = add := Option.some.inj this
      subst h2
      intro q hq
      rcases List.mem_singleton.mp hq with rfl
      simp only [workJobStep]
      rw [if_pos hhash, if_pos hkeep, hfind]
      rfl
    | some hv =>
      rw [hfind] at h
      have h2 : (apply_bullet_limit hv m).bind
          (fun hv2 => some [Value.dict (setItem es "highlights" hv2)]) = some add := h
      cases habl : apply_bullet_limit hv m with
      | none => rw [habl] at h2; simp at h2
      | some hv2 =>
        rw [habl] at h2
        simp only [Option.some_bind, Option.some.injEq] at h2
        subst h2
        intro q hq
        rcases List.mem_singleton.mp hq with rfl
        have htags : dictGetD (setItem es "highlights" hv2) "include_in" (.list []) =
            dictGetD es "include_in" (.list []) := by
          simp only [dictGetD, dictFind_setItem_other es "highlights" "include_in" hv2
            (by decide)]
        simp only [workJobStep, htags]
        rw [if_pos hhash, if_pos hkeep]
        rw [dictFind_setItem_self es "highlights" hv2]
        simp only [abl_idem hv m hv2 habl, Option.bind_eq_bind, Option.some_bind,
          setItem_setItem]
        rfl
  | none =>
    have : ([] : List Value) = add := Option.some.inj h
    subst this
    intro q hq; cases hq
  | bool b =>
    have : ([] : List Value) = add := Option.some.inj h
    subst this
    intro q hq; cases hq
  | int n =>
    have : ([] : List Value) = add := Option.some.inj h
    subst this
    intro q hq; cases hq
  | str s =>
    have : ([] : List Value) = add := Option.some.inj h
    subst this
    intro q hq; cases hq
  | list l =>
    have : ([] : List Value) = add := Option.some.inj h
    subst this
    intro q hq; cases hq

theorem workListLoop_out_kept (t : List Value) (m : Value) (js out : List Value)
    (h : workListLoop t m js = some out) :
    ∀ q ∈ out, workJobStep t m q = some [q] := by
  induction js generalizing out with
  | nil =>
    have : ([] : List Value) = out := Option.some.inj h
    subst this
    intro q hq; cases hq
  | cons j rest ih =>
    simp only [workListLoop, Option.bind_eq_bind] at h
    cases hstep : workJobStep t m j with
    | none => rw [hstep] at h; simp at h
    | some add =>
      rw [hstep] at h
      simp only [Option.some_bind] at h
      cases hloop : workListLoop t m rest with
      | none => rw [hloop] at h; simp at h
      | some tail =>
        rw [hloop] at h
        simp only [Option.some_bind, Option.pure_def, Option.some.injEq] at h
        subst h
        intro q hq
        rcases List.mem_append.mp hq with hq1 | hq2
        · exact workJobStep_idem t m j add hstep q hq1
        · exact ih tail hloop q hq2

theorem workListLoop_keepAll (t : List Value) (m : Value) (js : List Value)
    (h : ∀ q ∈ js, workJobStep t m q = some [q]) :
    workListLoop t m js = some js := by
  induction js with
  | nil => rfl
  | cons q rest ih =>
    simp only [workListLoop, h q (List.mem_cons_self _ _), Option.bind_eq_bind,
      Option.some_bind, ih (fun x hx => h x (List.mem_cons_of_mem _ hx))]
    rfl

theorem filterWorkList_idem (t : List Value) (m raw : Value) (js : List Value)
    (h : filterWorkList t m raw = some js) :
    filterWorkList t m (.list js) = some js := by
  by_cases hh : hashableAll t = true
  · simp only [filterWorkList, hh, Bool.not_true, Bool.false_eq_true, if_false,
      Option.bind_eq_bind] at h ⊢
    cases hiter : pyIter raw with
    | none => rw [hiter] at h; simp at h
    | some xs =>
      rw [hiter] at h
      simp only [Option.some_bind] at h
      simp only [pyIter, Option.some_bind]
      exact workListLoop_keepAll t m js (workListLoop_out_kept t m xs js h)
  · exfalso
    simp only [Bool.not_eq_true] at hh
    simp only [filterWorkList, hh, Bool.not_false, if_true, Option.bind_eq_bind] at h
    exact absurd (show (Option.none : Option (List Value)) = some js from h) (by simp)

theorem dictFind_none_of_any_false (es : List (String × Value)) (k : String)
    (h : es.any (fun kv => kv.1 == k) = false) : dictFind es k = Option.none := by
  induction es with
  | nil => rfl
  | cons kv rest ih =>
    cases kv with
    | mk k0 v0 =>
      simp only [List.any_cons, Bool.or_eq_false_iff, beq_eq_false_iff_ne, ne_eq] at h
      simp only [dictFind, if_neg h.1]
      exact ih (by simpa using h.2)

theorem setItem_ne_nil (es : List (String × Value)) (k : String) (v : Value) :
    setItem es k v ≠ [] := by
  cases es with
  | nil => simp [setItem]
  | cons kv rest =>
    cases kv with
    | mk k0 v0 =>
      by_cases hk : k0 = k
      · simp [setItem, hk]
      · simp [setItem, hk]

theorem sectionStep_nondict (k : String) (d : Value) (f : Value → Option Value)
    (src flt flt2 : Value) (h : sectionStep k d f src flt = some flt2)
    (hnd : ∀ es, flt ≠ .dict es) : flt2 = flt := by
  simp only [sectionStep, Option.bind_eq_bind] at h
  cases hin : pyInStr k flt with
  | none => rw [hin] at h; simp at h
  | some b =>
    rw [hin] at h
    simp only [Option.some_bind] at h
    cases b with
    | false =>
      simp only [Bool.false_eq_true, if_false, Option.pure_def, Option.some.injEq] at h
      exact h.symm
    | true =>
      exfalso
      simp only [if_true, Option.bind_eq_bind] at h
      cases hsrc : (match src with
          | Value.dict es => some (dictGetD es k d)
          | _ => Option.none) with
      | none => rw [hsrc] at h; simp at h
      | some raw =>
        rw [hsrc] at h
        simp only [Option.some_bind] at h
        cases hf : f raw with
        | none => rw [hf] at h; simp at h
        | some newv =>
          rw [hf] at h
          simp only [Option.some_bind] at h
          cases flt with
          | dict es => exact (hnd es) rfl
          | none => exact absurd (show (Option.none : Option Value) = some flt2 from h) (by simp)
          | bool bb => exact absurd (show (Option.none : Option Value) = some flt2 from h) (by simp)
          | int n => exact absurd (show (Option.none : Option Value) = some flt2 from h) (by simp)
          | str s => exact absurd (show (Option.none : Option Value) = some flt2 from h) (by simp)
          | list l => exact absurd (show (Option.none : Option Value) = some flt2 from h) (by simp)

theorem runSections_nondict (src : Value)
    (steps : List (String × Value × (Value → Option Value))) :
    ∀ (flt out : Value), runSections src steps flt = some out →
    (∀ es, flt ≠ .dict es) → out = flt := by
  induction steps with
  | nil =>
    intro flt out h _
    exact (Option.some.inj h).symm
  | cons s rest ih =>
    intro flt out h hnd
    cases s with
    | mk k df =>
      cases df with
      | mk d f =>
        simp only [runSections, Option.bind_eq_bind] at h
        cases hstep : sectionStep k d f src flt with
        | none => rw [hstep] at h; simp at h
        | some flt1 =>
          rw [hstep] at h
          simp only [Option.some_bind] at h
          have h1 : flt1 = flt := sectionStep_nondict k d f src flt flt1 hstep hnd
          rw [h1] at h
          exact ih flt out h hnd

theorem sectionStep_dict_cases (k : String) (d : Value) (f : Value → Option Value)
    (src : Value) (fes : List (String × Value)) (flt2 : Value)
    (h : sectionStep k d f src (.dict fes) = some flt2) :
    (fes.any (fun kv => kv.1 == k) = false ∧ flt2 = .dict fes) ∨
    (fes.any (fun kv => kv.1 == k) = true ∧
     ∃ srcEs newv, src = Value.dict srcEs ∧ f (dictGetD srcEs k d) = some newv ∧
       flt2 = .dict (setItem fes k newv)) := by
  simp only [sectionStep, pyInStr, Option.bind_eq_bind, Option.some_bind] at h
  by_cases hp : (fes.any fun kv => kv.1 == k) = true
  · rw [if_pos (by simpa using hp)] at h
    cases src with
    | dict srcEs =>
      simp only [Option.bind_eq_bind, Option.some_bind] at h
      cases hf : f (dictGetD srcEs k d) with
      | none => rw [hf] at h; simp at h
      | some newv =>
        rw [hf] at h
        simp only [Option.some_bind, Option.pure_def, Option.some.injEq] at h
        exact Or.inr ⟨hp, srcEs, newv, rfl, hf, h.symm⟩
    | none => simp at h
    | bool b => simp at h
    | int n => simp at h
    | str s => simp at h
    | list l => simp at h
  · have hp2 : (fes.any fun kv => kv.1 == k) = false := by
      cases hb : (fes.any fun kv => kv.1 == k)
      · rfl
      · exact absurd hb hp
    rw [hp2] at h
    simp only [Bool.false_eq_true, if_false, Option.pure_def, Option.some.injEq] at h
    exact Or.inl ⟨hp2, h.symm⟩

theorem sectionStep_self (k : String) (d : Value) (f : Value → Option Value)
    (des : List (String × Value))
    (hstable : ∀ v, dictFind des k = some v → f v = some v) :
    sectionStep k d f (.dict des) (.dict des) = some (.dict des) := by
  simp only [sectionStep, pyInStr, Option.bind_eq_bind, Option.some_bind]
  by_cases hp : (des.any fun kv => kv.1 == k) = true
  · rw [if_pos (by simpa using hp)]
    obtain ⟨v, hv⟩ := dictFind_isSome_of_any des k hp
    have hget : dictGetD des k d = v := by simp [dictGetD, hv]
    simp only [Option.some_bind, hget, hstable v hv, Option.some_bind,
      setItem_find_self des k v hv]
    rfl
  · have hp2 : (des.any fun kv => kv.1 == k) = false := by
      cases hb : (des.any fun kv => kv.1 == k)
      · rfl
      · exact absurd hb hp
    rw [hp2]
    simp

theorem runSections_self (steps : List (String × Value × (Value → Option Value)))
    (des : List (String × Value))
    (hstable : ∀ s ∈ steps, ∀ v, dictFind des s.1 = some v → s.2.2 v = some v) :
    runSections (.dict des) steps (.dict des) = some (.dict des) := by
  induction steps with
  | nil => rfl
  | cons s rest ih =>
    cases s with
    | mk k df =>
      cases df with
      | mk d f =>
        simp only [runSections, Option.bind_eq_bind,
          sectionStep_self k d f des (hstable (k, d, f) (List.mem_cons_self _ _)),
          Option.some_bind]
        exact ih (fun s hs => hstable s (List.mem_cons_of_mem _ hs))

theorem runSections_shape (src : Value)
    (steps : List (String × Value × (Value → Option Value))) :
    ∀ (des : List (String × Value)) (out : Value),
    runSections src steps (.dict des) = some out →
    ∃ outEs, out = .dict outEs ∧ (des ≠ [] → outEs ≠ []) := by
  induction steps with
  | nil =>
    intro des out h
    exact ⟨des, (Option.some.inj h).symm, fun hne => hne⟩
  | cons s rest ih =>
    intro des out h
    cases s with
    | mk k df =>
      cases df with
      | mk d f =>
        simp only [runSections, Option.bind_eq_bind] at h
        cases hstep : sectionStep k d f src (.dict des) with
        | none => rw [hstep] at h; simp at h
        | some flt1 =>
          rw [hstep] at h
          simp only [Option.some_bind] at h
          rcases sectionStep_dict_cases k d f src des flt1 hstep with
            ⟨_, rfl⟩ | ⟨_, srcEs, newv, _, _, rfl⟩
          · exact ih des out h
          · obtain ⟨outEs, hout, hne⟩ := ih (setItem des k newv) out h
            exact ⟨outEs, hout, fun _ => hne (setItem_ne_nil des k newv)⟩

theorem runSections_find_other (src : Value)
    (steps : List (String × Value × (Value → Option Value))) :
    ∀ (des outEs : List (String × Value)) (k : String),
    runSections src steps (.dict des) = some (.dict outEs) →
    (∀ s ∈ steps, s.1 ≠ k) →
    dictFind outEs k = dictFind des k := by
  induction steps with
  | nil =>
    intro des outEs k h _
    have h2 : Value.dict des = Value.dict outEs := Option.some.inj h
    cases h2
    rfl
  | cons s rest ih =>
    intro des outEs k h hk
    cases s with
    | mk k0 df =>
      cases df with
      | mk d f =>
        simp only [runSections, Option.bind_eq_bind] at h
        cases hstep : sectionStep k0 d f src (.dict des) with
        | none => rw [hstep] at h; simp at h
        | some flt1 =>
          rw [hstep] at h
          simp only [Option.some_bind] at h
          rcases sectionStep_dict_cases k0 d f src des flt1 hstep with
            ⟨_, rfl⟩ | ⟨_, srcEs, newv, _, _, rfl⟩
          · exact ih des outEs k h (fun s hs => hk s (List.mem_cons_of_mem _ hs))
          · rw [ih (setItem des k0 newv) outEs k h
              (fun s hs => hk s (List.mem_cons_of_mem _ hs))]
            exact dictFind_setItem_other des k0 k newv
              (by
                have := hk (k0, d, f) (List.mem_cons_self _ _)
                simp only at this
                exact Ne.symm this)

theorem runSections_stable (src : Value)
    (steps : List (String × Value × (Value → Option Value))) :
    ∀ (des outEs : List (String × Value)),
    (steps.map (fun s => s.1)).Nodup →
    runSections src steps (.dict des) = some (.dict outEs) →
    (∀ s ∈ steps, ∀ raw v, s.2.2 raw = some v → s.2.2 v = some v) →
    ∀ s ∈ steps, ∀ v, dictFind outEs s.1 = some v → s.2.2 v = some v := by
  induction steps with
  | nil =>
    intro des outEs _ _ _ s hs
    cases hs
  | cons s0 rest ih =>
    intro des outEs hnodup h hself s hs
    cases s0 with
    | mk k0 df =>
      cases df with
      | mk d f =>
        simp only [List.map_cons, List.nodup_cons] at hnodup
        obtain ⟨hk0, hnodup2⟩ := hnodup
        simp only [runSections, Option.bind_eq_bind] at h
        cases hstep : sectionStep k0 d f src (.dict des) with
        | none => rw [hstep] at h; simp at h
        | some flt1 =>
          rw [hstep] at h
          simp only [Option.some_bind] at h
          rcases List.mem_cons.mp hs with rfl | hs2
          · -- s is the head step (k0, d, f)
            rcases sectionStep_dict_cases k0 d f src des flt1 hstep with
              ⟨hany, rfl⟩ | ⟨_, srcEs, newv, _, hcomp, rfl⟩
            · intro v hv
              rw [runSections_find_other src rest des outEs k0 h
                (by
                  intro s2 hs2 hc
                  exact hk0 (List.mem_map.mpr ⟨s2, hs2, hc⟩))] at hv
              rw [dictFind_none_of_any_false des k0 hany] at hv
              cases hv
            · intro v hv
              rw [runSections_find_other src rest (setItem des k0 newv) outEs k0 h
                (by
                  intro s2 hs2 hc
                  exact hk0 (List.mem_map.mpr ⟨s2, hs2, hc⟩))] at hv
              rw [dictFind_setItem_self des k0 newv] at hv
              have : newv = v := Option.some.inj hv
              subst this
              exact hself (k0, d, f) (List.mem_cons_self _ _) _ newv hcomp
          · -- s is in the tail
            rcases sectionStep_dict_cases k0 d f src des flt1 hstep with
              ⟨_, rfl⟩ | ⟨_, srcEs, newv, _, _, rfl⟩
            · exact ih des outEs hnodup2 h
                (fun s2 h2 => hself s2 (List.mem_cons_of_mem _ h2)) s hs2
            · exact ih (setItem des k0 newv) outEs hnodup2 h
                (fun s2 h2 => hself s2 (List.mem_cons_of_mem _ h2)) s hs2

theorem resumeSections_selfStable (it : List Value) (maxB : Value) :
    ∀ s ∈ resumeSections it maxB, ∀ raw v, s.2.2 raw = some v → s.2.2 v = some v := by
  intro s hs raw v h
  simp only [resumeSections, List.mem_cons, List.not_mem_nil, or_false] at hs
  rcases hs with rfl | rfl | rfl | rfl | rfl | rfl | rfl | rfl | rfl
  · simp only at h ⊢
    cases hfwe : filter_work_experience raw it maxB with
    | none => rw [hfwe] at h; simp at h
    | some w' =>
      rw [hfwe] at h
      simp only [Option.map_some'] at h
      rw [← (Option.some.inj h)]
      rw [fwe_idem raw it maxB w' hfwe]
      rfl
  · simp only at h ⊢
    cases hfw : filterWorkList it maxB raw with
    | none => rw [hfw] at h; simp at h
    | some js =>
      rw [hfw] at h
      simp only [Option.map_some'] at h
      rw [← (Option.some.inj h)]
      rw [filterWorkList_idem it maxB raw js hfw]
      rfl
  all_goals (
    first
    | (simp only at h ⊢
       cases hfi : filter_items raw it with
       | none => rw [hfi] at h; simp at h
       | some xs =>
         rw [hfi] at h
         simp only [Option.map_some'] at h
         rw [← (Option.some.inj h)]
         rw [filter_items_idem raw it xs hfi]
         rfl)
    | (simp only at h ⊢
       cases hfp : filter_projects raw it maxB with
       | none => rw [hfp] at h; simp at h
       | some xs =>
         rw [hfp] at h
         simp only [Option.map_some'] at h
         rw [← (Option.some.inj h)]
         rw [filter_projects_idem raw it maxB xs hfp]
         rfl))

theorem resumeSections_keysNodup (it : List Value) (maxB : Value) :
    ((resumeSections it maxB).map (fun s => s.1)).Nodup := by
  have h : (resumeSections it maxB).map (fun s => s.1) =
      ["work_experience", "work", "education", "awards", "certifications",
       "certificates", "specialty_skills", "skills", "projects"] := rfl
  rw [h]
  decide

/-- C5: filter_resume_data is idempotent with respect to the resume data — feeding
its output back through the same profile returns that output unchanged, stated as
`(filter_resume_data D P).bind (fun D2 => filter_resume_data D2 P) = filter_resume_data D P`
for every resume value D and profile value P. -/
theorem claim_C5 (D P : Value) :
    (filter_resume_data D P).bind (fun D2 => filter_resume_data D2 P) =
      filter_resume_data D P := by
  by_cases htrD : pyTruthy D = true
  · by_cases htrP : pyTruthy P = true
    · cases P with
      | dict pes =>
        cases hfil : dictGetD pes "filters" (.dict []) with
        | dict fes =>
          have hred : ∀ E : Value, pyTruthy E = true →
              filter_resume_data E (.dict pes) =
              runSections E (resumeSections
                (extractIncludeTags (dictGetD fes "include_tags" (.list [.str "all"])))
                (dictGetD fes "max_bullets_per_job" .none)) (deepcopy E) := by
            intro E htrE
            simp only [filter_resume_data, htrE, htrP, Bool.not_true, Bool.false_eq_true,
              if_false, pyGet, hfil, Option.bind_eq_bind, Option.pure_def,
              Option.some_bind, Option.none_bind]
          rw [hred D htrD]
          cases hrun : runSections D (resumeSections
              (extractIncludeTags (dictGetD fes "include_tags" (.list [.str "all"])))
              (dictGetD fes "max_bullets_per_job" .none)) (deepcopy D) with
          | none => rfl
          | some D2 =>
            simp only [Option.some_bind]
            cases D with
            | dict des =>
              have hdesne : des ≠ [] := by
                intro hc
                subst hc
                simp [pyTruthy] at htrD
              obtain ⟨outEs, rfl, houtne⟩ := runSections_shape (.dict des) _ des D2 hrun
              have hone : outEs ≠ [] := houtne hdesne
              have htrD2 : pyTruthy (Value.dict outEs) = true := by
                match outEs, hone with
                | [], h => exact absurd rfl h
                | a :: b, _ => rfl
              rw [hred (.dict outEs) htrD2]
              exact runSections_self _ outEs
                (runSections_stable (.dict des) _ des outEs
                  (resumeSections_keysNodup _ _) hrun (resumeSections_selfStable _ _))
            | none => simp [pyTruthy] at htrD
            | bool b =>
              have hD2 : D2 = Value.bool b :=
                runSections_nondict _ _ _ _ hrun (by intro es hc; cases hc)
              subst hD2
              rw [hred (.bool b) htrD]
              exact hrun
            | int n =>
              have hD2 : D2 = Value.int n :=
                runSections_nondict _ _ _ _ hrun (by intro es hc; cases hc)
              subst hD2
              rw [hred (.int n) htrD]
              exact hrun
            | str s =>
              have hD2 : D2 = Value.str s :=
                runSections_nondict _ _ _ _ hrun (by intro es hc; cases hc)
              subst hD2
              rw [hred (.str s) htrD]
              exact hrun
            | list l =>
              have hD2 : D2 = Value.list l :=
                runSections_nondict _ _ _ _ hrun (by intro es hc; cases hc)
              subst hD2
              rw [hred (.list l) htrD]
              exact hrun
        | none =>
          have hnone : filter_resume_data D (.dict pes) = Option.none := by
            simp only [filter_resume_data, htrD, htrP, Bool.not_true, Bool.false_eq_true,
              if_false, pyGet, hfil, Option.bind_eq_bind, Option.pure_def,
              Option.some_bind, Option.none_bind]
          rw [hnone]; rfl
        | bool b =>
          have hnone : filter_resume_data D (.dict pes) = Option.none := by
            simp only [filter_resume_data, htrD, htrP, Bool.not_true, Bool.false_eq_true,
              if_false, pyGet, hfil, Option.bind_eq_bind, Option.pure_def,
              Option.some_bind, Option.none_bind]
          rw [hnone]; rfl
        | int n =>
          have hnone : filter_resume_data D (.dict pes) = Option.none := by
            simp only [filter_resume_data, htrD, htrP, Bool.not_true, Bool.false_eq_true,
              if_false, pyGet, hfil, Option.bind_eq_bind, Option.pure_def,
              Option.some_bind, Option.none_bind]
          rw [hnone]; rfl
        | str s =>
          have hnone : filter_resume_data D (.dict pes) = Option.none := by
            simp only [filter_resume_data, htrD, htrP, Bool.not_true, Bool.false_eq_true,
              if_false, pyGet, hfil, Option.bind_eq_bind, Option.pure_def,
              Option.some_bind, Option.none_bind]
          rw [hnone]; rfl
        | list l =>
          have hnone : filter_resume_data D (.dict pes) = Option.none := by
            simp only [filter_resume_data, htrD, htrP, Bool.not_true, Bool.false_eq_true,
              if_false, pyGet, hfil, Option.bind_eq_bind, Option.pure_def,
              Option.some_bind, Option.none_bind]
          rw [hnone]; rfl
      | none => simp [pyTruthy] at htrP
      | bool b =>
        have hnone : filter_resume_data D (.bool b) = Option.none := by
          simp only [filter_resume_data, htrD, htrP, Bool.not_true, Bool.false_eq_true,
            if_false, pyGet, Option.bind_eq_bind, Option.pure_def,
            Option.some_bind, Option.none_bind]
        rw [hnone]; rfl
      | int n =>
        have hnone : filter_resume_data D (.int n) = Option.none := by
          simp only [filter_resume_data, htrD, htrP, Bool.not_true, Bool.false_eq_true,
            if_false, pyGet, Option.bind_eq_bind, Option.pure_def,
            Option.some_bind, Option.none_bind]
        rw [hnone]; rfl
      | str s =>
        have hnone : filter_resume_data D (.str s) = Option.none := by
          simp only [filter_resume_data, htrD, htrP, Bool.not_true, Bool.false_eq_true,
            if_false, pyGet, Option.bind_eq_bind, Option.pure_def,
            Option.some_bind, Option.none_bind]
        rw [hnone]; rfl
      | list l =>
        have hnone : filter_resume_data D (.list l) = Option.none := by
          simp only [filter_resume_data, htrD, htrP, Bool.not_true, Bool.false_eq_true,
            if_false, pyGet, Option.bind_eq_bind, Option.pure_def,
            Option.some_bind, Option.none_bind]
        rw [hnone]; rfl
    · have hP : pyTruthy P = false := by
        cases hb : pyTruthy P
        · rfl
        · exact absurd hb htrP
      have h1 : filter_resume_data D P = some D := by
        simp only [filter_resume_data, htrD, hP, Bool.not_true, Bool.not_false,
          Bool.false_eq_true, if_false, if_true, deepcopy, Option.bind_eq_bind,
          Option.pure_def, Option.some_bind]
      rw [h1]
      simp only [Option.some_bind]
      exact h1
  · have hD : pyTruthy D = false := by
      cases hb : pyTruthy D
      · rfl
      · exact absurd hb htrD
    have h1 : filter_resume_data D P = some (.dict []) := by
      simp only [filter_resume_data, hD, Bool.not_false, if_true, Option.pure_def]
    rw [h1]
    simp only [Option.some_bind]
    rfl
